import Mathlib

/-!
Verification of the Automa procedural grid animation engine
(`sweep-highlight.tsx` and `matrix-trails.tsx` renderers).

Numbers are modelled as exact rationals, JS typed arrays as total
functions out of `ℕ`, and every use of `Math.random()` as an oracle
argument supplying the drawn values.
-/

/-- Pointwise update of a function, modelling an array write `f[k] = v`. -/
def upd {α : Type} (f : ℕ → α) (k : ℕ) (v : α) : ℕ → α :=
  fun j => if j = k then v else f j

/-- The shared `clamp(n, a, b) = Math.min(b, Math.max(a, n))` helper. -/
def jsClamp (n a b : ℚ) : ℚ := min b (max a n)

/-- JS `x % 1` (remainder takes the dividend's sign). -/
def jsMod1 (q : ℚ) : ℚ := if 0 ≤ q then Int.fract q else -(Int.fract (-q))

/-- JS `String.prototype.trim`: strip whitespace from both ends. -/
def jsTrim (s : List Char) : List Char :=
  ((s.dropWhile Char.isWhitespace).reverse.dropWhile Char.isWhitespace).reverse

/-- JS `char.codePointAt(0) || 63` (the lone falsy codepoint 0 becomes 63). -/
def jsCodePoint (c : Char) : ℕ := if c.toNat = 0 then 63 else c.toNat

@[simp] lemma upd_same {α : Type} (f : ℕ → α) (k : ℕ) (v : α) : upd f k v k = v := by
  simp [upd]

lemma upd_ne {α : Type} (f : ℕ → α) (k j : ℕ) (v : α) (h : j ≠ k) : upd f k v j = f j := by
  simp [upd, h]

namespace SweepHighlight

/-- A gradient control point `{ p, v }`. -/
structure GradientStop where
  p : ℚ
  v : ℚ
deriving DecidableEq

/-- The ascending-by-position ordering used by the JS comparator `(a, b) => a.p - b.p`. -/
def stopLe (a b : GradientStop) : Prop := a.p ≤ b.p

instance : DecidableRel stopLe := fun a b => inferInstanceAs (Decidable (a.p ≤ b.p))

/-- `[...gradientStops].sort((a, b) => a.p - b.p)`: a stable ascending sort by
position, modelled by stable insertion sort. -/
def sortStops (stops : List GradientStop) : List GradientStop :=
  List.insertionSort stopLe stops

/-- The bracketing-pair search loop of `evalGradient`: scan consecutive stop
pairs, and on the first pair with `a.p ≤ u ≤ b.p` linearly interpolate with the
denominator floored at `1e-6`; return 0 if no pair matches. -/
def interpSegments : List GradientStop → ℚ → ℚ
  | a :: b :: rest, u =>
    if a.p ≤ u ∧ u ≤ b.p then
      a.v + (b.v - a.v) * ((u - a.p) / max (1/1000000) (b.p - a.p))
    else interpSegments (b :: rest) u
  | _, _ => 0

/-- `evalGradient(u, lockEnds)` from `sweep-highlight.tsx`. -/
def evalGradient (stops : List GradientStop) (u : ℚ) (lockEnds : Bool) : ℚ :=
  if lockEnds = true ∧ (u ≤ 0 ∨ 1 ≤ u) then 0
  else if stops.length = 0 then 0
  else
    let sorted := sortStops stops
    let first := sorted.getD 0 ⟨0, 0⟩
    let lastS := sorted.getD (sorted.length - 1) ⟨0, 0⟩
    if u ≤ first.p then first.v
    else if lastS.p ≤ u then lastS.v
    else interpSegments sorted u

/-- `buildFixedPool(textArray, orientation)` (array form): trim each source
string, drop empties, fall back to `[0x4e00]` when nothing is left, else
concatenate all code points. -/
def buildFixedPool (textArray : List (List Char)) : List ℕ :=
  let texts := (textArray.map jsTrim).filter (fun t => !t.isEmpty)
  if texts.length = 0 then [0x4e00]
  else (texts.map (fun t => t.map jsCodePoint)).flatten

/-- `grid.cell = Math.max(8, values.cellSize || 16)`. -/
def gridCell (cellSize : ℚ) : ℚ := max 8 (if cellSize = 0 then 16 else cellSize)

/-- `grid.cols = Math.max(1, Math.ceil(width / grid.cell))`. -/
def gridCols (width cellSize : ℚ) : ℤ := max 1 ⌈width / gridCell cellSize⌉

/-- `grid.rows = Math.max(1, Math.ceil(height / grid.cell))`. -/
def gridRows (height cellSize : ℚ) : ℤ := max 1 ⌈height / gridCell cellSize⌉

/-- `const fixedLen = fixedPool.length || 1`. -/
def fixedLen (pool : List ℕ) : ℕ := if pool.length = 0 then 1 else pool.length

inductive BgMode where
  | random : BgMode
  | fixed : BgMode

inductive Orientation where
  | horizontal : Orientation
  | vertical : Orientation

/-- The codepoint `rebuild` assigns to cell `i` (`i = r * cols + c`):
fixed/vertical walks column-major through the pool, fixed/horizontal cycles the
pool row-major (`fi++ % fixedLen`), and random mode draws from the RNG
(modelled by the oracle `rand`). -/
def assignChar (mode : BgMode) (orient : Orientation) (pool : List ℕ) (rand : ℕ → ℕ)
    (cols rows i : ℕ) : ℕ :=
  match mode, orient with
  | BgMode.fixed, Orientation.vertical =>
    pool.getD (((i % cols) * rows + i / cols) % fixedLen pool) 0
  | BgMode.fixed, Orientation.horizontal => pool.getD (i % fixedLen pool) 0
  | BgMode.random, _ => rand i

/-- The sweep-center computation of `draw`:
`t = ((now / periodMs) + phase) % 1; center = -overscan + t * (1 + 2 * overscan)`. -/
def sweepCenter (nowMs periodMs phase overscan : ℚ) : ℚ :=
  let t := jsMod1 (nowMs / periodMs + phase);
  -overscan + t * (1 + 2 * overscan)

/-- The same computation with `draw`'s own parameter conditioning:
`periodSec = max(0.5, speed)`, `halfW = clamp(halfWRaw, 0.05, 0.6)`,
`overscan = halfW + 0.1`. -/
def drawCenter (speed halfWRaw nowMs phase : ℚ) : ℚ :=
  sweepCenter nowMs (max (1/2) speed * 1000) phase (jsClamp halfWRaw (1/20) (3/5) + 1/10)

end SweepHighlight

namespace MatrixTrails

/-- `buildFixedPool(str)` (string form) from `matrix-trails.tsx`:
`(str && str.trim()) || "你好世界"`, then the code points, with an
unreachable `[0x4e00]` guard against a zero-length pool. -/
def buildFixedPool (s : List Char) : List ℕ :=
  let cleaned := if (jsTrim s).isEmpty then "你好世界".toList else jsTrim s
  if cleaned.length = 0 then [0x4e00]
  else cleaned.map jsCodePoint

/-- The grid state of the matrix-trails renderer (struct-of-arrays storage,
cell index `i = r * cols + c`). -/
structure Grid where
  cols : ℕ
  rows : ℕ
  wallChars : ℕ → ℕ
  baseChars : ℕ → ℕ
  twPhase : ℕ → ℚ
  twSpeed : ℕ → ℚ
  hitMask : ℕ → Bool
  hiByCol : ℕ → List ℕ
  trail : ℕ → ℚ
  active : List ℕ
  activeFlag : ℕ → Bool
  dropPos : ℕ → ℚ
  dropSpd : ℕ → ℚ

/-- The raw simulation parameters read from `values` by `stepSimulation`
(clamping happens inside the step, as in the source). -/
structure SimParams where
  outsideStrength : ℚ
  insideStrength : ℚ
  outsideDecay : ℚ
  insideDecay : ℚ
  fillFixed : Bool

/-- Oracle for the random draws made during one simulation step:
`repl c r` is the replacement codepoint generated when the drop in column `c`
strikes row `r`; `respawn c` is `Math.random() > 0.92`; `newPos c` is the
`Math.random() * 8` draw and `newSpd c` the fresh speed. -/
structure DropOracle where
  repl : ℕ → ℤ → ℕ
  respawn : ℕ → Bool
  newPos : ℕ → ℚ
  newSpd : ℕ → ℚ

/-- Oracle for the random draws made during `rebuildAll` plus the rasterized
alpha coverage (`maskData i` = "alpha of cell i exceeds the threshold 64"). -/
structure BuildOracle where
  dropPos0 : ℕ → ℚ
  dropSpd0 : ℕ → ℚ
  twPhase0 : ℕ → ℚ
  twSpeed0 : ℕ → ℚ
  wallRand : ℕ → ℕ
  maskData : ℕ → Bool

/-- The per-column inverted index built by `rasterizeHitMask`'s single pass:
`tmp[i % cols].push(i)` for every lit cell `i`, in increasing `i` order. -/
def buildColIndex (cols total : ℕ) (lit : ℕ → Bool) : ℕ → List ℕ :=
  (List.range total).foldl
    (fun tmp i => if lit i then upd tmp (i % cols) (tmp (i % cols) ++ [i]) else tmp)
    (fun _ => [])

/-- `rasterizeHitMask(word, cols, rows)`: bail out on a degenerate grid,
otherwise overwrite `hitMask` with the thresholded coverage and rebuild
`hiByCol`.  The font rasterization itself is the oracle `data`. -/
def rasterizeHitMask (data : ℕ → Bool) (cols rows : ℕ) (g : Grid) : Grid :=
  if cols = 0 ∨ rows = 0 then g
  else
    { g with
      hitMask := fun i => if i < cols * rows then data i else g.hitMask i,
      hiByCol := buildColIndex cols (cols * rows) data }

/-- `rebuildAll()`: recompute geometry, reallocate every per-cell array
(trail 0, active list empty, flags clear), assign wall = base codepoints from
the fixed pool or the RNG, seed per-column drops, then rasterize the mask. -/
def rebuildAll (width height cellSize : ℚ) (fillFixed : Bool) (fixedText : List Char)
    (o : BuildOracle) : Grid :=
  let cols := (max 1 ⌈width / SweepHighlight.gridCell cellSize⌉).toNat
  let rows := (max 1 ⌈height / SweepHighlight.gridCell cellSize⌉).toNat
  let total := cols * rows
  let pool := buildFixedPool fixedText
  let basePool := if pool.length = 0 then [63] else pool
  let wall : ℕ → ℕ := fun i =>
    if i < total then
      (if fillFixed then basePool.getD (i % basePool.length) 0 else o.wallRand i)
    else 0
  rasterizeHitMask o.maskData cols rows
    { cols := cols, rows := rows,
      wallChars := wall, baseChars := wall,
      twPhase := fun i => if i < total then o.twPhase0 i else 0,
      twSpeed := fun i => if i < total then o.twSpeed0 i else 0,
      hitMask := fun _ => false,
      hiByCol := fun _ => [],
      trail := fun _ => 0,
      active := [],
      activeFlag := fun _ => false,
      dropPos := fun c => if c < cols then o.dropPos0 c else 0,
      dropSpd := fun c => if c < cols then o.dropSpd0 c else 0 }

/-- `addActive(idx)`: no-op when the membership flag is already set, else set
the flag and append the index. -/
def addActive (g : Grid) (idx : ℕ) : Grid :=
  if g.activeFlag idx then g
  else { g with activeFlag := upd g.activeFlag idx true, active := g.active ++ [idx] }

/-- Swap-with-last removal: `active[i] = active[active.length - 1]; active.pop()`. -/
def removeAt (l : List ℕ) (i : ℕ) : List ℕ :=
  (l.set i (l.getD (l.length - 1) 0)).dropLast

/-- `const dec = grid.hitMask[idx] ? decayIn : decayOut`. -/
def decCoef (dIn dOut : ℚ) (g : Grid) (idx : ℕ) : ℚ :=
  if g.hitMask idx = true then dIn else dOut

/-- The below-threshold branch of the decay loop: snap the trail to 0, clear
the membership flag, restore the baseline codepoint in fixed mode (write only
on change), and swap-remove slot `i` of the active list. -/
def removalGrid (isFixed : Bool) (g : Grid) (i idx : ℕ) : Grid :=
  { g with
    trail := upd g.trail idx 0,
    activeFlag := upd g.activeFlag idx false,
    wallChars :=
      if isFixed = true ∧ g.wallChars idx ≠ g.baseChars idx then
        upd g.wallChars idx (g.baseChars idx)
      else g.wallChars,
    active := removeAt g.active i }

/-- The above-threshold branch of the decay loop: store the decayed value. -/
def keepGrid (g : Grid) (idx : ℕ) (v : ℚ) : Grid := { g with trail := upd g.trail idx v }

/-- The decay loop of `stepSimulation`: walk the active list; multiply each
cell's trail by the applicable decay factor; below `0.006` remove the cell
(re-examining slot `i`, which now holds the previously last entry); otherwise
store the decayed value and advance. -/
def decayLoop (dIn dOut : ℚ) (isFixed : Bool) (g : Grid) (i : ℕ) : Grid :=
  if h : i < g.active.length then
    if g.trail (g.active.get ⟨i, h⟩) * decCoef dIn dOut g (g.active.get ⟨i, h⟩) < 6/1000 then
      decayLoop dIn dOut isFixed (removalGrid isFixed g i (g.active.get ⟨i, h⟩)) i
    else
      decayLoop dIn dOut isFixed
        (keepGrid g (g.active.get ⟨i, h⟩)
          (g.trail (g.active.get ⟨i, h⟩) * decCoef dIn dOut g (g.active.get ⟨i, h⟩)))
        (i + 1)
  else g
termination_by g.active.length - i
decreasing_by
  all_goals first
  | omega
  | (simp only [removalGrid, keepGrid, removeAt, List.length_dropLast, List.length_set]; omega)

/-- The decay phase with the source's clamping of the decay factors. -/
def stepDecay (p : SimParams) (g : Grid) : Grid :=
  decayLoop (jsClamp p.insideDecay (1/2) (199/200)) (jsClamp p.outsideDecay (1/2) (49/50))
    p.fillFixed g 0

/-- The replace-codepoint part of a strike (write only on change). -/
def strikeWall (o : DropOracle) (c : ℕ) (r : ℤ) (idx : ℕ) (g : Grid) : Grid :=
  if g.wallChars idx ≠ o.repl c r then { g with wallChars := upd g.wallChars idx (o.repl c r) }
  else g

/-- `const inj = grid.hitMask[idx] ? inStrength : outStrength` with the
source's clamping of the strengths to `[0, 1]`. -/
def injStrength (p : SimParams) (g : Grid) (idx : ℕ) : ℚ :=
  if g.hitMask idx = true then jsClamp p.insideStrength 0 1 else jsClamp p.outsideStrength 0 1

/-- `if (inj > grid.trail[idx]) grid.trail[idx] = inj`. -/
def strikeTrail (p : SimParams) (idx : ℕ) (g : Grid) : Grid :=
  if g.trail idx < injStrength p g idx then { g with trail := upd g.trail idx (injStrength p g idx) }
  else g

/-- One strike of the drop in column `c` at row `r`: skip out-of-range rows;
otherwise replace the codepoint, raise the trail to at least the applicable
injection strength, and add the cell to the active set. -/
def strikeCell (p : SimParams) (o : DropOracle) (c : ℕ) (g : Grid) (r : ℤ) : Grid :=
  if 0 ≤ r ∧ r < (g.rows : ℤ) then
    addActive
      (strikeTrail p (r.toNat * g.cols + c) (strikeWall o c r (r.toNat * g.cols + c) g))
      (r.toNat * g.cols + c)
  else g

/-- The inclusive integer range `[r0, r1]` walked by `for (let r = r0; r <= r1; r++)`. -/
def intRange (r0 r1 : ℤ) : List ℤ :=
  (List.range (r1 + 1 - r0).toNat).map (fun j : ℕ => r0 + (j : ℤ))

/-- `grid.dropPos[c] = next`. -/
def storeDropPos (c : ℕ) (next : ℚ) (g : Grid) : Grid :=
  { g with dropPos := upd g.dropPos c next }

/-- The probabilistic respawn once the drop has fallen past `rows + 6`:
`if (grid.dropPos[c] > grid.rows + 6 && Math.random() > 0.92) reset`. -/
def respawnCheck (o : DropOracle) (c : ℕ) (g : Grid) : Grid :=
  if (g.rows : ℚ) + 6 < g.dropPos c ∧ o.respawn c = true then
    { g with
      dropPos := upd g.dropPos c (-(o.newPos c)),
      dropSpd := upd g.dropSpd c (o.newSpd c) }
  else g

/-- Advance the drop of column `c` one step: strike every integer row between
`floor(prev)` and `floor(prev + speed)`, store the new position, and
probabilistically respawn once past `rows + 6`. -/
def stepColumn (p : SimParams) (o : DropOracle) (g : Grid) (c : ℕ) : Grid :=
  respawnCheck o c
    (storeDropPos c (g.dropPos c + g.dropSpd c)
      ((intRange ⌊g.dropPos c⌋ ⌊g.dropPos c + g.dropSpd c⌋).foldl (strikeCell p o c) g))

/-- The drops phase: advance every column's drop in order. -/
def stepDrops (p : SimParams) (o : DropOracle) (g : Grid) : Grid :=
  (List.range g.cols).foldl (stepColumn p o) g

/-- `stepSimulation()`: decay the active cells, then advance the drops. -/
def stepSimulation (p : SimParams) (o : DropOracle) (g : Grid) : Grid :=
  stepDrops p o (stepDecay p g)

/-- The active-set bookkeeping invariant: no duplicate indices, and the
membership flag is set exactly for the listed indices. -/
def ActiveInv (g : Grid) : Prop :=
  g.active.Nodup ∧ ∀ j, g.activeFlag j = true ↔ j ∈ g.active

/-- `idx`'s cell is not hit by its column's drop during this step: its row is
outside the inclusive floor-range of the column's motion (or below the grid). -/
def NotStruck (g : Grid) (idx : ℕ) : Prop :=
  ¬(⌊g.dropPos (idx % g.cols)⌋ ≤ ((idx / g.cols : ℕ) : ℤ)
    ∧ ((idx / g.cols : ℕ) : ℤ) ≤ ⌊g.dropPos (idx % g.cols) + g.dropSpd (idx % g.cols)⌋
    ∧ idx / g.cols < g.rows)

/-- The scheduler state of the second matrix-trails variant: the repaint log of
the wall canvas (rows, in paint order), the stripe cursor, and the next
twinkle deadline. -/
structure StripeState where
  rowsPainted : List ℕ
  twRowCursor : ℕ
  nextTwinkleAt : ℚ

/-- `paintWallRows(rStart, rCount)`: repaint rows `[rStart, min(rows, rStart + rCount))`. -/
def paintWallRows (rows rStart rCount : ℕ) (st : StripeState) : StripeState :=
  let rEnd := min rows (rStart + rCount)
  { st with rowsPainted := st.rowsPainted ++ List.range' rStart (rEnd - rStart) }

/-- `stripeRows = Math.max(1, Math.floor(cellsBudget / Math.max(1, cols)))`
with the fixed budget of 2000 cells. -/
def stripeRowsFor (cols : ℕ) : ℕ := max 1 (2000 / max 1 cols)

/-- The elapsed-interval branch of `maybeTwinkleStripe`: schedule the next
deadline, repaint one stripe at the cursor, advance the cursor by the stripe
height and wrap it to 0 at the bottom. -/
def twinkleStripeAction (cols rows : ℕ) (interval nowMs : ℚ) (st : StripeState) : StripeState :=
  let s := stripeRowsFor cols
  let st1 := paintWallRows rows st.twRowCursor s { st with nextTwinkleAt := nowMs + interval }
  let cur := st1.twRowCursor + s
  { st1 with twRowCursor := if rows ≤ cur then 0 else cur }

/-- `maybeTwinkleStripe(nowMs)`: do nothing while twinkle is disabled or the
interval has not elapsed, else run one stripe repaint. -/
def maybeTwinkleStripe (cols rows : ℕ) (twFpsRaw nowMs : ℚ) (st : StripeState) : StripeState :=
  let twFps := jsClamp twFpsRaw 0 30
  if twFps ≤ 0 then st
  else if nowMs < st.nextTwinkleAt then st
  else twinkleStripeAction cols rows (1000 / twFps) nowMs st

/-- Repeated elapsed-interval stripe repaints (step `k` uses timestamp `ts k`). -/
def stripeIter (cols rows : ℕ) (interval : ℚ) (ts : ℕ → ℚ) : ℕ → StripeState → StripeState
  | 0, st => st
  | k + 1, st => stripeIter cols rows interval ts k (twinkleStripeAction cols rows interval (ts k) st)

end MatrixTrails

lemma getD_of_lt {α : Type} (l : List α) (n : ℕ) (d : α) (h : n < l.length) :
    l.getD n d = l.get ⟨n, h⟩ := by
  simp [List.getD_eq_getElem?_getD, List.getElem?_eq_getElem h]

namespace MatrixTrails

lemma removeAt_length (l : List ℕ) (i : ℕ) : (removeAt l i).length = l.length - 1 := by
  simp [removeAt]

lemma removeAt_last (l : List ℕ) (h : l ≠ []) : removeAt l (l.length - 1) = l.dropLast := by
  have hlen : 0 < l.length := List.length_pos.mpr h
  have hlt : l.length - 1 < l.length := by omega
  rw [removeAt, List.set_eq_take_append_cons_drop, if_pos hlt]
  have hdrop : l.drop (l.length - 1 + 1) = [] := by
    apply List.drop_eq_nil_of_le; omega
  rw [hdrop, List.dropLast_concat, List.dropLast_eq_take]

lemma removeAt_mid (l : List ℕ) (i : ℕ) (h : i + 1 < l.length) :
    removeAt l i = l.take i ++ (l.getD (l.length - 1) 0) :: (l.drop (i + 1)).dropLast := by
  have hlt : i < l.length := by omega
  have hne : l.drop (i + 1) ≠ [] := by
    intro hc
    have := List.length_drop (i + 1) l
    rw [hc] at this
    simp at this
    omega
  rw [removeAt, List.set_eq_take_append_cons_drop, if_pos hlt,
    List.dropLast_append_cons, List.dropLast_cons_of_ne_nil hne]

lemma drop_succ_eq_concat (l : List ℕ) (i : ℕ) (h : i + 1 < l.length) :
    l.drop (i + 1) = (l.drop (i + 1)).dropLast ++ [l.getD (l.length - 1) 0] := by
  have hne : l.drop (i + 1) ≠ [] := by
    intro hc
    have := List.length_drop (i + 1) l
    rw [hc] at this
    simp at this
    omega
  have hlast : (l.drop (i + 1)).getLast hne = l.getD (l.length - 1) 0 := by
    have hidx : (l.drop (i + 1)).length - 1 < (l.drop (i + 1)).length := by
      have := List.length_drop (i + 1) l
      omega
    rw [List.getLast_eq_getElem, getD_of_lt l (l.length - 1) 0 (by omega)]
    have := List.getElem_drop l (i := i + 1) (j := (l.drop (i + 1)).length - 1) (h := hidx)
    rw [this]
    congr 1
    have := List.length_drop (i + 1) l
    omega
  conv_lhs => rw [← List.dropLast_concat_getLast hne]
  rw [hlast]

lemma drop_removeAt_mid (l : List ℕ) (i : ℕ) (h : i + 1 < l.length) :
    (removeAt l i).drop i = (l.getD (l.length - 1) 0) :: (l.drop (i + 1)).dropLast := by
  rw [removeAt_mid l i h, List.drop_append_eq_append_drop]
  have h1 : List.drop i (List.take i l) = [] := by
    apply List.drop_eq_nil_of_le; rw [List.length_take]; omega
  have h2 : i - (List.take i l).length = 0 := by rw [List.length_take]; omega
  rw [h1, h2, List.drop_zero, List.nil_append]

lemma drop_removeAt_last (l : List ℕ) (h : l ≠ []) :
    (removeAt l (l.length - 1)).drop (l.length - 1) = [] := by
  rw [removeAt_last l h]
  apply List.drop_eq_nil_of_le
  simp

lemma removeAt_perm_eraseIdx (l : List ℕ) (i : ℕ) (h : i < l.length) :
    (removeAt l i).Perm (l.eraseIdx i) := by
  rcases Nat.lt_or_ge (i + 1) l.length with hmid | hlast
  · rw [removeAt_mid l i hmid, List.eraseIdx_eq_take_drop_succ]
    refine List.Perm.append_left _ ?_
    conv_rhs => rw [drop_succ_eq_concat l i hmid]
    exact (List.perm_append_singleton _ _).symm
  · have hi : i = l.length - 1 := by omega
    have hne : l ≠ [] := by
      intro hc; rw [hc] at h; simp at h
    subst hi
    rw [removeAt_last l hne, List.eraseIdx_eq_take_drop_succ,
      List.drop_eq_nil_of_le (by omega), List.append_nil, List.dropLast_eq_take]

lemma removeAt_nodup (l : List ℕ) (i : ℕ) (h : i < l.length) (hn : l.Nodup) :
    (removeAt l i).Nodup :=
  ((removeAt_perm_eraseIdx l i h).nodup_iff).mpr ((l.eraseIdx_sublist i).nodup hn)

lemma mem_removeAt_iff (l : List ℕ) (i : ℕ) (x : ℕ) (h : i < l.length) :
    x ∈ removeAt l i ↔ x ∈ l.take i ∨ x ∈ l.drop (i + 1) := by
  rw [(removeAt_perm_eraseIdx l i h).mem_iff, List.eraseIdx_eq_take_drop_succ, List.mem_append]

lemma mem_decomp (l : List ℕ) (i : ℕ) (x : ℕ) (hi : i < l.length) :
    x ∈ l ↔ x ∈ l.take i ∨ x = l.get ⟨i, hi⟩ ∨ x ∈ l.drop (i + 1) := by
  have hdec : l = l.take i ++ l.get ⟨i, hi⟩ :: l.drop (i + 1) := by
    conv_lhs => rw [← List.take_append_drop i l, List.drop_eq_getElem_cons hi]
    simp [List.get_eq_getElem]
  conv_lhs => rw [hdec]
  simp only [List.mem_append, List.mem_cons]

lemma get_mem_drop (l : List ℕ) (i : ℕ) (hi : i < l.length) :
    l.get ⟨i, hi⟩ ∈ l.drop i := by
  have hget : l.get ⟨i, hi⟩ = l[i] := rfl
  rw [List.drop_eq_getElem_cons hi, hget]
  exact List.mem_cons_self _ _

lemma mem_drop_of_mem_drop_succ {l : List ℕ} {i : ℕ} {x : ℕ} (h : x ∈ l.drop (i + 1)) :
    x ∈ l.drop i := by
  rcases Nat.lt_or_ge i l.length with hi | hi
  · rw [List.drop_eq_getElem_cons hi]
    exact List.mem_cons_of_mem _ h
  · rw [List.drop_eq_nil_of_le (by omega)] at h
    simp at h

lemma not_mem_removeAt_self (l : List ℕ) (i : ℕ) (hi : i < l.length) (hn : l.Nodup) :
    l.get ⟨i, hi⟩ ∉ removeAt l i := by
  intro hmem
  rw [mem_removeAt_iff l i _ hi] at hmem
  have hdec : l = l.take i ++ l.get ⟨i, hi⟩ :: l.drop (i + 1) := by
    conv_lhs => rw [← List.take_append_drop i l, List.drop_eq_getElem_cons hi]
    simp [List.get_eq_getElem]
  rw [hdec] at hn
  rw [List.nodup_append] at hn
  rcases hmem with hmem | hmem
  · exact hn.2.2 hmem (List.mem_cons_self _ _)
  · exact (List.nodup_cons.mp hn.2.1).1 hmem

lemma mem_drop_removeAt (l : List ℕ) (i : ℕ) (x : ℕ) (hi : i < l.length)
    (hx : x ∈ l.drop i) (hne : x ≠ l.get ⟨i, hi⟩) : x ∈ (removeAt l i).drop i := by
  rw [List.drop_eq_getElem_cons hi] at hx
  rcases List.mem_cons.mp hx with hc | hc
  · exact absurd (by simpa [List.get_eq_getElem] using hc) hne
  · have hmid : i + 1 < l.length := by
      by_contra hge
      rw [List.drop_eq_nil_of_le (by omega)] at hc
      simp at hc
    rw [drop_removeAt_mid l i hmid]
    rw [drop_succ_eq_concat l i hmid, List.mem_append] at hc
    rcases hc with hc | hc
    · exact List.mem_cons_of_mem _ hc
    · simp only [List.mem_singleton] at hc
      rw [hc]
      exact List.mem_cons_self _ _

lemma mem_drop_of_mem_drop_removeAt (l : List ℕ) (i : ℕ) (x : ℕ) (hi : i < l.length)
    (hx : x ∈ (removeAt l i).drop i) : x ∈ l.drop i := by
  rcases Nat.lt_or_ge (i + 1) l.length with hmid | hlast
  · rw [drop_removeAt_mid l i hmid] at hx
    rcases List.mem_cons.mp hx with hc | hc
    · subst hc
      have : l.getD (l.length - 1) 0 ∈ l.drop (i + 1) := by
        rw [drop_succ_eq_concat l i hmid, List.mem_append]
        right; simp
      exact mem_drop_of_mem_drop_succ this
    · have : x ∈ l.drop (i + 1) := (List.dropLast_sublist _).mem hc
      exact mem_drop_of_mem_drop_succ this
  · have hne : l ≠ [] := by
      intro hc; rw [hc] at hi; simp at hi
    have hi' : i = l.length - 1 := by omega
    rw [hi', drop_removeAt_last l hne] at hx
    simp at hx

lemma mem_of_mem_removeAt (l : List ℕ) (i : ℕ) (x : ℕ) (hi : i < l.length)
    (hx : x ∈ removeAt l i) : x ∈ l := by
  rw [mem_removeAt_iff l i x hi] at hx
  rcases hx with hx | hx
  · exact List.take_subset _ _ hx
  · exact List.drop_subset _ _ hx

lemma mem_removeAt_of_ne (l : List ℕ) (i : ℕ) (x : ℕ) (hi : i < l.length)
    (hx : x ∈ l) (hne : x ≠ l.get ⟨i, hi⟩) : x ∈ removeAt l i := by
  rw [mem_removeAt_iff l i x hi]
  rcases (mem_decomp l i x hi).mp hx with hc | hc | hc
  · exact Or.inl hc
  · exact absurd hc hne
  · exact Or.inr hc

lemma mem_removeAt_of_not_mem_drop (l : List ℕ) (i : ℕ) (x : ℕ) (hi : i < l.length)
    (hx : x ∈ l) (hnd : x ∉ l.drop i) : x ∈ removeAt l i := by
  refine mem_removeAt_of_ne l i x hi hx ?_
  intro hc
  exact hnd (hc ▸ get_mem_drop l i hi)

end MatrixTrails

namespace MatrixTrails

lemma nodup_get_not_mem_drop_succ (l : List ℕ) (i : ℕ) (hi : i < l.length) (hn : l.Nodup) :
    l.get ⟨i, hi⟩ ∉ l.drop (i + 1) := by
  have hdec : l = l.take i ++ l.get ⟨i, hi⟩ :: l.drop (i + 1) := by
    conv_lhs => rw [← List.take_append_drop i l, List.drop_eq_getElem_cons hi]
    simp [List.get_eq_getElem]
  rw [hdec] at hn
  rw [List.nodup_append] at hn
  exact (List.nodup_cons.mp hn.2.1).1

lemma decayLoop_terminal (d1 d2 : ℚ) (f : Bool) (g : Grid) (i : ℕ)
    (h : ¬ i < g.active.length) : decayLoop d1 d2 f g i = g := by
  rw [decayLoop, dif_neg h]

lemma decayLoop_removal (d1 d2 : ℚ) (f : Bool) (g : Grid) (i : ℕ) (h : i < g.active.length)
    (hv : g.trail (g.active.get ⟨i, h⟩) * decCoef d1 d2 g (g.active.get ⟨i, h⟩) < 6/1000) :
    decayLoop d1 d2 f g i = decayLoop d1 d2 f (removalGrid f g i (g.active.get ⟨i, h⟩)) i := by
  rw [decayLoop, dif_pos h, if_pos hv]

lemma decayLoop_keep (d1 d2 : ℚ) (f : Bool) (g : Grid) (i : ℕ) (h : i < g.active.length)
    (hv : ¬ g.trail (g.active.get ⟨i, h⟩) * decCoef d1 d2 g (g.active.get ⟨i, h⟩) < 6/1000) :
    decayLoop d1 d2 f g i =
      decayLoop d1 d2 f
        (keepGrid g (g.active.get ⟨i, h⟩)
          (g.trail (g.active.get ⟨i, h⟩) * decCoef d1 d2 g (g.active.get ⟨i, h⟩))) (i + 1) := by
  rw [decayLoop, dif_pos h, if_neg hv]

/-- The fields the decay loop never writes. -/
def geomDropFields (g : Grid) :
    ℕ × ℕ × (ℕ → ℕ) × (ℕ → Bool) × (ℕ → List ℕ) × (ℕ → ℚ) × (ℕ → ℚ) × (ℕ → ℚ) × (ℕ → ℚ) :=
  (g.cols, g.rows, g.baseChars, g.hitMask, g.hiByCol, g.twPhase, g.twSpeed, g.dropPos, g.dropSpd)

lemma decayLoop_const (d1 d2 : ℚ) (f : Bool) :
    ∀ g i, geomDropFields (decayLoop d1 d2 f g i) = geomDropFields g := by
  intro g i
  induction g, i using decayLoop.induct d1 d2 f with
  | case1 g i h hv ih =>
    rw [decayLoop_removal d1 d2 f g i h hv, ih]
    simp [removalGrid, geomDropFields]
  | case2 g i h hv ih =>
    rw [decayLoop_keep d1 d2 f g i h hv, ih]
    simp [keepGrid, geomDropFields]
  | case3 g i h =>
    rw [decayLoop_terminal d1 d2 f g i h]

lemma decayLoop_fields (d1 d2 : ℚ) (f : Bool) (g : Grid) (i : ℕ) :
    (decayLoop d1 d2 f g i).cols = g.cols
    ∧ (decayLoop d1 d2 f g i).rows = g.rows
    ∧ (decayLoop d1 d2 f g i).baseChars = g.baseChars
    ∧ (decayLoop d1 d2 f g i).hitMask = g.hitMask
    ∧ (decayLoop d1 d2 f g i).hiByCol = g.hiByCol
    ∧ (decayLoop d1 d2 f g i).twPhase = g.twPhase
    ∧ (decayLoop d1 d2 f g i).twSpeed = g.twSpeed
    ∧ (decayLoop d1 d2 f g i).dropPos = g.dropPos
    ∧ (decayLoop d1 d2 f g i).dropSpd = g.dropSpd := by
  have h := decayLoop_const d1 d2 f g i
  simp only [geomDropFields, Prod.mk.injEq] at h
  exact h

lemma decayLoop_frame (d1 d2 : ℚ) (f : Bool) (idx : ℕ) :
    ∀ g i, idx ∉ g.active.drop i →
      (decayLoop d1 d2 f g i).trail idx = g.trail idx
      ∧ (decayLoop d1 d2 f g i).activeFlag idx = g.activeFlag idx
      ∧ (decayLoop d1 d2 f g i).wallChars idx = g.wallChars idx
      ∧ (idx ∈ (decayLoop d1 d2 f g i).active ↔ idx ∈ g.active) := by
  intro g i
  induction g, i using decayLoop.induct d1 d2 f with
  | case1 g i h hv ih =>
    intro hidx
    have hcur : g.active.get ⟨i, h⟩ ∈ g.active.drop i := get_mem_drop _ i h
    have hne : idx ≠ g.active.get ⟨i, h⟩ := by
      intro e; exact hidx (e ▸ hcur)
    have hidx' : idx ∉ (removalGrid f g i (g.active.get ⟨i, h⟩)).active.drop i := by
      intro hc
      exact hidx (mem_drop_of_mem_drop_removeAt g.active i idx h hc)
    obtain ⟨h1, h2, h3, h4⟩ := ih hidx'
    rw [decayLoop_removal d1 d2 f g i h hv]
    refine ⟨?_, ?_, ?_, ?_⟩
    · rw [h1]; simp only [removalGrid]; exact upd_ne _ _ _ _ hne
    · rw [h2]; simp only [removalGrid]; exact upd_ne _ _ _ _ hne
    · rw [h3]; simp only [removalGrid]
      split
      · exact upd_ne _ _ _ _ hne
      · rfl
    · rw [h4]
      simp only [removalGrid]
      constructor
      · intro hc; exact mem_of_mem_removeAt g.active i idx h hc
      · intro hc; exact mem_removeAt_of_ne g.active i idx h hc hne
  | case2 g i h hv ih =>
    intro hidx
    have hcur : g.active.get ⟨i, h⟩ ∈ g.active.drop i := get_mem_drop _ i h
    have hne : idx ≠ g.active.get ⟨i, h⟩ := by
      intro e; exact hidx (e ▸ hcur)
    have hidx' : idx ∉ (keepGrid g (g.active.get ⟨i, h⟩)
        (g.trail (g.active.get ⟨i, h⟩) * decCoef d1 d2 g (g.active.get ⟨i, h⟩))).active.drop (i + 1) := by
      intro hc
      exact hidx (mem_drop_of_mem_drop_succ hc)
    obtain ⟨h1, h2, h3, h4⟩ := ih hidx'
    rw [decayLoop_keep d1 d2 f g i h hv]
    refine ⟨?_, ?_, ?_, ?_⟩
    · rw [h1]; simp only [keepGrid]; exact upd_ne _ _ _ _ hne
    · rw [h2]; rfl
    · rw [h3]; rfl
    · rw [h4]; rfl
  | case3 g i h =>
    intro _
    rw [decayLoop_terminal d1 d2 f g i h]
    exact ⟨rfl, rfl, rfl, Iff.rfl⟩

lemma decayLoop_process (d1 d2 : ℚ) (f : Bool) (idx : ℕ) :
    ∀ g i, g.active.Nodup → idx ∈ g.active.drop i →
      ((g.trail idx * decCoef d1 d2 g idx < 6/1000 →
        (decayLoop d1 d2 f g i).trail idx = 0
        ∧ (decayLoop d1 d2 f g i).activeFlag idx = false
        ∧ idx ∉ (decayLoop d1 d2 f g i).active
        ∧ (decayLoop d1 d2 f g i).wallChars idx =
            (if f = true ∧ g.wallChars idx ≠ g.baseChars idx then g.baseChars idx
             else g.wallChars idx))
      ∧ (¬ g.trail idx * decCoef d1 d2 g idx < 6/1000 →
        (decayLoop d1 d2 f g i).trail idx = g.trail idx * decCoef d1 d2 g idx
        ∧ (decayLoop d1 d2 f g i).activeFlag idx = g.activeFlag idx
        ∧ idx ∈ (decayLoop d1 d2 f g i).active
        ∧ (decayLoop d1 d2 f g i).wallChars idx = g.wallChars idx)) := by
  intro g i
  induction g, i using decayLoop.induct d1 d2 f with
  | case1 g i h hv ih =>
    intro hnd hmem
    by_cases hcur : g.active.get ⟨i, h⟩ = idx
    · have hvidx : g.trail idx * decCoef d1 d2 g idx < 6/1000 := hcur ▸ hv
      have hnotrm : idx ∉ removeAt g.active i := hcur ▸ not_mem_removeAt_self g.active i h hnd
      have hfr := decayLoop_frame d1 d2 f idx (removalGrid f g i (g.active.get ⟨i, h⟩)) i
        (fun hc => hnotrm (List.drop_subset _ _ hc))
      obtain ⟨f1, f2, f3, f4⟩ := hfr
      rw [decayLoop_removal d1 d2 f g i h hv]
      constructor
      · intro _
        refine ⟨?_, ?_, ?_, ?_⟩
        · rw [f1]; simp only [removalGrid]; rw [hcur]; exact upd_same _ _ _
        · rw [f2]; simp only [removalGrid]; rw [hcur]; exact upd_same _ _ _
        · intro hc; exact hnotrm (f4.mp hc)
        · rw [f3]; simp only [removalGrid]; rw [hcur]
          split
          · exact upd_same _ _ _
          · rfl
      · intro hq; exact absurd hvidx hq
    · have hnei : idx ≠ g.active.get ⟨i, h⟩ := fun e => hcur e.symm
      have hmem' : idx ∈ (removalGrid f g i (g.active.get ⟨i, h⟩)).active.drop i :=
        mem_drop_removeAt g.active i idx h hmem hnei
      have htr : (removalGrid f g i (g.active.get ⟨i, h⟩)).trail idx = g.trail idx := by
        simp only [removalGrid]; exact upd_ne _ _ _ _ hnei
      have hwc : (removalGrid f g i (g.active.get ⟨i, h⟩)).wallChars idx = g.wallChars idx := by
        simp only [removalGrid]
        split
        · exact upd_ne _ _ _ _ hnei
        · rfl
      have hfl : (removalGrid f g i (g.active.get ⟨i, h⟩)).activeFlag idx = g.activeFlag idx := by
        simp only [removalGrid]; exact upd_ne _ _ _ _ hnei
      have hbc : (removalGrid f g i (g.active.get ⟨i, h⟩)).baseChars idx = g.baseChars idx := rfl
      have hdc : decCoef d1 d2 (removalGrid f g i (g.active.get ⟨i, h⟩)) idx
          = decCoef d1 d2 g idx := rfl
      obtain ⟨ihA, ihB⟩ := ih (removeAt_nodup g.active i h hnd) hmem'
      rw [decayLoop_removal d1 d2 f g i h hv]
      constructor
      · intro hq
        obtain ⟨a1, a2, a3, a4⟩ := ihA (by rw [htr, hdc]; exact hq)
        refine ⟨a1, a2, a3, ?_⟩
        rw [a4, hwc, hbc]
      · intro hq
        obtain ⟨b1, b2, b3, b4⟩ := ihB (by rw [htr, hdc]; exact hq)
        refine ⟨?_, ?_, b3, ?_⟩
        · rw [b1, htr, hdc]
        · rw [b2, hfl]
        · rw [b4, hwc]
  | case2 g i h hv ih =>
    intro hnd hmem
    by_cases hcur : g.active.get ⟨i, h⟩ = idx
    · have hvidx : ¬ g.trail idx * decCoef d1 d2 g idx < 6/1000 := hcur ▸ hv
      have hnod : idx ∉ g.active.drop (i + 1) :=
        hcur ▸ nodup_get_not_mem_drop_succ g.active i h hnd
      have hfr := decayLoop_frame d1 d2 f idx
        (keepGrid g (g.active.get ⟨i, h⟩)
          (g.trail (g.active.get ⟨i, h⟩) * decCoef d1 d2 g (g.active.get ⟨i, h⟩))) (i + 1) hnod
      obtain ⟨f1, f2, f3, f4⟩ := hfr
      rw [decayLoop_keep d1 d2 f g i h hv]
      constructor
      · intro hq; exact absurd hq hvidx
      · intro _
        refine ⟨?_, ?_, ?_, ?_⟩
        · rw [f1]; simp only [keepGrid]; rw [hcur]; exact upd_same _ _ _
        · rw [f2]; rfl
        · exact f4.mpr (List.drop_subset _ _ hmem)
        · rw [f3]; rfl
    · have hnei : idx ≠ g.active.get ⟨i, h⟩ := fun e => hcur e.symm
      have hmem' : idx ∈ g.active.drop (i + 1) := by
        rw [List.drop_eq_getElem_cons h] at hmem
        rcases List.mem_cons.mp hmem with hc | hc
        · exact absurd (by simpa [List.get_eq_getElem] using hc) hnei
        · exact hc
      have htr : (keepGrid g (g.active.get ⟨i, h⟩)
          (g.trail (g.active.get ⟨i, h⟩) * decCoef d1 d2 g (g.active.get ⟨i, h⟩))).trail idx
            = g.trail idx := by
        simp only [keepGrid]; exact upd_ne _ _ _ _ hnei
      have hKw : (keepGrid g (g.active.get ⟨i, h⟩)
          (g.trail (g.active.get ⟨i, h⟩) * decCoef d1 d2 g (g.active.get ⟨i, h⟩))).wallChars idx
            = g.wallChars idx := rfl
      have hKb : (keepGrid g (g.active.get ⟨i, h⟩)
          (g.trail (g.active.get ⟨i, h⟩) * decCoef d1 d2 g (g.active.get ⟨i, h⟩))).baseChars idx
            = g.baseChars idx := rfl
      have hKf : (keepGrid g (g.active.get ⟨i, h⟩)
          (g.trail (g.active.get ⟨i, h⟩) * decCoef d1 d2 g (g.active.get ⟨i, h⟩))).activeFlag idx
            = g.activeFlag idx := rfl
      have hKd : decCoef d1 d2 (keepGrid g (g.active.get ⟨i, h⟩)
          (g.trail (g.active.get ⟨i, h⟩) * decCoef d1 d2 g (g.active.get ⟨i, h⟩))) idx
            = decCoef d1 d2 g idx := rfl
      obtain ⟨ihA, ihB⟩ := ih hnd hmem'
      rw [decayLoop_keep d1 d2 f g i h hv]
      constructor
      · intro hq
        obtain ⟨a1, a2, a3, a4⟩ := ihA (by rw [htr, hKd]; exact hq)
        refine ⟨a1, a2, a3, ?_⟩
        rw [a4, hKw, hKb]
      · intro hq
        obtain ⟨b1, b2, b3, b4⟩ := ihB (by rw [htr, hKd]; exact hq)
        refine ⟨?_, ?_, b3, ?_⟩
        · rw [b1, htr, hKd]
        · rw [b2, hKf]
        · rw [b4, hKw]
  | case3 g i h =>
    intro _ hmem
    rw [List.drop_eq_nil_of_le (by omega)] at hmem
    simp at hmem

lemma decayLoop_activeInv (d1 d2 : ℚ) (f : Bool) :
    ∀ g i, ActiveInv g → ActiveInv (decayLoop d1 d2 f g i) := by
  intro g i
  induction g, i using decayLoop.induct d1 d2 f with
  | case1 g i h hv ih =>
    intro hinv
    rw [decayLoop_removal d1 d2 f g i h hv]
    apply ih
    constructor
    · exact removeAt_nodup g.active i h hinv.1
    · intro j
      simp only [removalGrid]
      by_cases hj : j = g.active.get ⟨i, h⟩
      · subst hj
        rw [upd_same]
        constructor
        · intro hc; exact absurd hc (by simp)
        · intro hc
          exact absurd hc (not_mem_removeAt_self g.active i h hinv.1)
      · rw [upd_ne _ _ _ _ hj]
        rw [hinv.2 j]
        constructor
        · intro hc; exact mem_removeAt_of_ne g.active i j h hc hj
        · intro hc; exact mem_of_mem_removeAt g.active i j h hc
  | case2 g i h hv ih =>
    intro hinv
    rw [decayLoop_keep d1 d2 f g i h hv]
    apply ih
    exact ⟨hinv.1, hinv.2⟩
  | case3 g i h =>
    intro hinv
    rw [decayLoop_terminal d1 d2 f g i h]
    exact hinv

end MatrixTrails

namespace MatrixTrails

/-- The facts that hold for a cell just struck by the drop of its column. -/
def StruckFacts (cp : ℕ) (inj : ℚ) (idx : ℕ) (g : Grid) : Prop :=
  g.wallChars idx = cp ∧ inj ≤ g.trail idx ∧ g.activeFlag idx = true ∧ idx ∈ g.active

lemma strikeWall_wall_self (o : DropOracle) (c : ℕ) (r : ℤ) (idx : ℕ) (g : Grid) :
    (strikeWall o c r idx g).wallChars idx = o.repl c r := by
  unfold strikeWall
  split
  · exact upd_same _ _ _
  · next hcond => exact not_not.mp hcond

lemma strikeWall_wall_ne (o : DropOracle) (c : ℕ) (r : ℤ) (idx j : ℕ) (g : Grid) (h : j ≠ idx) :
    (strikeWall o c r idx g).wallChars j = g.wallChars j := by
  unfold strikeWall
  split
  · exact upd_ne _ _ _ _ h
  · rfl

lemma strikeWall_rest (o : DropOracle) (c : ℕ) (r : ℤ) (idx : ℕ) (g : Grid) :
    (strikeWall o c r idx g).cols = g.cols
    ∧ (strikeWall o c r idx g).rows = g.rows
    ∧ (strikeWall o c r idx g).baseChars = g.baseChars
    ∧ (strikeWall o c r idx g).hitMask = g.hitMask
    ∧ (strikeWall o c r idx g).trail = g.trail
    ∧ (strikeWall o c r idx g).active = g.active
    ∧ (strikeWall o c r idx g).activeFlag = g.activeFlag
    ∧ (strikeWall o c r idx g).dropPos = g.dropPos
    ∧ (strikeWall o c r idx g).dropSpd = g.dropSpd := by
  unfold strikeWall
  split <;> exact ⟨rfl, rfl, rfl, rfl, rfl, rfl, rfl, rfl, rfl⟩

lemma strikeTrail_trail_self (p : SimParams) (idx : ℕ) (g : Grid) :
    injStrength p g idx ≤ (strikeTrail p idx g).trail idx := by
  unfold strikeTrail
  split
  · exact le_of_eq (upd_same _ _ _).symm
  · next hcond => exact le_of_not_lt hcond

lemma strikeTrail_trail_ne (p : SimParams) (idx j : ℕ) (g : Grid) (h : j ≠ idx) :
    (strikeTrail p idx g).trail j = g.trail j := by
  unfold strikeTrail
  split
  · exact upd_ne _ _ _ _ h
  · rfl

lemma strikeTrail_rest (p : SimParams) (idx : ℕ) (g : Grid) :
    (strikeTrail p idx g).cols = g.cols
    ∧ (strikeTrail p idx g).rows = g.rows
    ∧ (strikeTrail p idx g).baseChars = g.baseChars
    ∧ (strikeTrail p idx g).hitMask = g.hitMask
    ∧ (strikeTrail p idx g).wallChars = g.wallChars
    ∧ (strikeTrail p idx g).active = g.active
    ∧ (strikeTrail p idx g).activeFlag = g.activeFlag
    ∧ (strikeTrail p idx g).dropPos = g.dropPos
    ∧ (strikeTrail p idx g).dropSpd = g.dropSpd := by
  unfold strikeTrail
  split <;> exact ⟨rfl, rfl, rfl, rfl, rfl, rfl, rfl, rfl, rfl⟩

lemma addActive_flag_self (g : Grid) (idx : ℕ) : (addActive g idx).activeFlag idx = true := by
  unfold addActive
  split
  · assumption
  · exact upd_same _ _ _

lemma addActive_mem_self (g : Grid) (idx : ℕ)
    (hfm : g.activeFlag idx = true → idx ∈ g.active) : idx ∈ (addActive g idx).active := by
  unfold addActive
  split
  · next hc => exact hfm hc
  · simp

lemma addActive_flag_ne (g : Grid) (idx j : ℕ) (h : j ≠ idx) :
    (addActive g idx).activeFlag j = g.activeFlag j := by
  unfold addActive
  split
  · rfl
  · exact upd_ne _ _ _ _ h

lemma addActive_mem_ne (g : Grid) (idx j : ℕ) (h : j ≠ idx) :
    (j ∈ (addActive g idx).active ↔ j ∈ g.active) := by
  unfold addActive
  split
  · exact Iff.rfl
  · simp [h]

lemma addActive_mem_mono (g : Grid) (idx j : ℕ) (h : j ∈ g.active) :
    j ∈ (addActive g idx).active := by
  unfold addActive
  split
  · exact h
  · simp [h]

lemma addActive_rest (g : Grid) (idx : ℕ) :
    (addActive g idx).cols = g.cols
    ∧ (addActive g idx).rows = g.rows
    ∧ (addActive g idx).baseChars = g.baseChars
    ∧ (addActive g idx).hitMask = g.hitMask
    ∧ (addActive g idx).wallChars = g.wallChars
    ∧ (addActive g idx).trail = g.trail
    ∧ (addActive g idx).dropPos = g.dropPos
    ∧ (addActive g idx).dropSpd = g.dropSpd := by
  unfold addActive
  split <;> exact ⟨rfl, rfl, rfl, rfl, rfl, rfl, rfl, rfl⟩

lemma addActive_activeInv (g : Grid) (idx : ℕ) (hinv : ActiveInv g) :
    ActiveInv (addActive g idx) := by
  unfold addActive
  split
  · exact hinv
  · next hflag =>
    constructor
    · have hnm : idx ∉ g.active := by
        intro hc
        exact hflag ((hinv.2 idx).mpr hc)
      simp only []
      rw [List.nodup_append]
      exact ⟨hinv.1, List.nodup_singleton idx, by
        intro a ha hb
        rw [List.mem_singleton] at hb
        subst hb
        exact hnm ha⟩
    · intro j
      by_cases hj : j = idx
      · subst hj
        simp [upd_same]
      · simp only []
        rw [upd_ne _ _ _ _ hj, List.mem_append, List.mem_singleton]
        rw [hinv.2 j]
        simp [hj]

end MatrixTrails

namespace MatrixTrails

lemma injStrength_congr (p : SimParams) (g' g : Grid) (h : g'.hitMask = g.hitMask) :
    injStrength p g' = injStrength p g := by
  funext idx
  unfold injStrength
  rw [h]

lemma strikeCell_const (p : SimParams) (o : DropOracle) (c : ℕ) (g : Grid) (r : ℤ) :
    (strikeCell p o c g r).cols = g.cols
    ∧ (strikeCell p o c g r).rows = g.rows
    ∧ (strikeCell p o c g r).baseChars = g.baseChars
    ∧ (strikeCell p o c g r).hitMask = g.hitMask
    ∧ (strikeCell p o c g r).dropPos = g.dropPos
    ∧ (strikeCell p o c g r).dropSpd = g.dropSpd := by
  unfold strikeCell addActive strikeTrail strikeWall
  repeat' split
  all_goals exact ⟨rfl, rfl, rfl, rfl, rfl, rfl⟩

lemma strikeCell_strike (p : SimParams) (o : DropOracle) (c : ℕ) (g : Grid) (r : ℤ)
    (hr0 : 0 ≤ r) (hrr : r < (g.rows : ℤ))
    (hfm : g.activeFlag (r.toNat * g.cols + c) = true → (r.toNat * g.cols + c) ∈ g.active) :
    StruckFacts (o.repl c r) (injStrength p g (r.toNat * g.cols + c)) (r.toNat * g.cols + c)
      (strikeCell p o c g r) := by
  unfold strikeCell
  rw [if_pos ⟨hr0, hrr⟩]
  refine ⟨?_, ?_, ?_, ?_⟩
  · rw [(addActive_rest _ _).2.2.2.2.1, (strikeTrail_rest _ _ _).2.2.2.2.1]
    exact strikeWall_wall_self o c r _ g
  · rw [(addActive_rest _ _).2.2.2.2.2.1]
    have hinj : injStrength p (strikeWall o c r (r.toNat * g.cols + c) g) (r.toNat * g.cols + c)
        = injStrength p g (r.toNat * g.cols + c) := by
      rw [injStrength_congr p _ g (strikeWall_rest o c r _ g).2.2.2.1]
    calc injStrength p g (r.toNat * g.cols + c)
        = injStrength p (strikeWall o c r (r.toNat * g.cols + c) g) (r.toNat * g.cols + c) :=
          hinj.symm
      _ ≤ _ := strikeTrail_trail_self p _ _
  · exact addActive_flag_self _ _
  · apply addActive_mem_self
    intro hflag
    rw [(strikeTrail_rest _ _ _).2.2.2.2.2.1, (strikeWall_rest _ _ _ _ _).2.2.2.2.2.1]
    apply hfm
    rw [(strikeTrail_rest _ _ _).2.2.2.2.2.2.1, (strikeWall_rest _ _ _ _ _).2.2.2.2.2.2.1] at hflag
    exact hflag

lemma strikeCell_frame (p : SimParams) (o : DropOracle) (c : ℕ) (g : Grid) (r : ℤ) (j : ℕ)
    (hne : ¬(0 ≤ r ∧ r < (g.rows : ℤ) ∧ r.toNat * g.cols + c = j)) :
    (strikeCell p o c g r).wallChars j = g.wallChars j
    ∧ (strikeCell p o c g r).trail j = g.trail j
    ∧ (strikeCell p o c g r).activeFlag j = g.activeFlag j
    ∧ (j ∈ (strikeCell p o c g r).active ↔ j ∈ g.active) := by
  unfold strikeCell
  split
  · next hin =>
    have hjne : j ≠ r.toNat * g.cols + c := by
      intro e; exact hne ⟨hin.1, hin.2, e.symm⟩
    refine ⟨?_, ?_, ?_, ?_⟩
    · rw [(addActive_rest _ _).2.2.2.2.1, (strikeTrail_rest _ _ _).2.2.2.2.1]
      exact strikeWall_wall_ne o c r _ j g hjne
    · rw [(addActive_rest _ _).2.2.2.2.2.1, strikeTrail_trail_ne _ _ _ _ hjne,
        (strikeWall_rest _ _ _ _ _).2.2.2.2.1]
    · rw [addActive_flag_ne _ _ _ hjne, (strikeTrail_rest _ _ _).2.2.2.2.2.2.1,
        (strikeWall_rest _ _ _ _ _).2.2.2.2.2.2.1]
    · rw [addActive_mem_ne _ _ _ hjne, (strikeTrail_rest _ _ _).2.2.2.2.2.1,
        (strikeWall_rest _ _ _ _ _).2.2.2.2.2.1]
  · exact ⟨rfl, rfl, rfl, Iff.rfl⟩

lemma strikeCell_activeInv (p : SimParams) (o : DropOracle) (c : ℕ) (g : Grid) (r : ℤ)
    (hinv : ActiveInv g) : ActiveInv (strikeCell p o c g r) := by
  unfold strikeCell
  split
  · apply addActive_activeInv
    constructor
    · rw [(strikeTrail_rest _ _ _).2.2.2.2.2.1, (strikeWall_rest _ _ _ _ _).2.2.2.2.2.1]
      exact hinv.1
    · intro j
      rw [(strikeTrail_rest _ _ _).2.2.2.2.2.2.1, (strikeWall_rest _ _ _ _ _).2.2.2.2.2.2.1,
        (strikeTrail_rest _ _ _).2.2.2.2.2.1, (strikeWall_rest _ _ _ _ _).2.2.2.2.2.1]
      exact hinv.2 j
  · exact hinv

lemma strikeCell_persist (p : SimParams) (o : DropOracle) (c : ℕ) (g : Grid) (r r0 : ℤ)
    (hcols : 0 < g.cols) (hr00 : 0 ≤ r0) (inj : ℚ)
    (hle : inj ≤ injStrength p g (r0.toNat * g.cols + c))
    (hf : StruckFacts (o.repl c r0) inj (r0.toNat * g.cols + c) g) :
    StruckFacts (o.repl c r0) inj (r0.toNat * g.cols + c) (strikeCell p o c g r) := by
  by_cases hin : 0 ≤ r ∧ r < (g.rows : ℤ)
  · by_cases hj : r.toNat * g.cols + c = r0.toNat * g.cols + c
    · have hreq : r = r0 := by
        have h1 : r.toNat * g.cols = r0.toNat * g.cols := by omega
        have h2 : r.toNat = r0.toNat := Nat.eq_of_mul_eq_mul_right hcols h1
        omega
      subst hreq
      have hfm : g.activeFlag (r.toNat * g.cols + c) = true → (r.toNat * g.cols + c) ∈ g.active :=
        fun _ => hf.2.2.2
      have hst := strikeCell_strike p o c g r hin.1 hin.2 hfm
      exact ⟨hst.1, le_trans hle hst.2.1, hst.2.2.1, hst.2.2.2⟩
    · have hfr := strikeCell_frame p o c g r (r0.toNat * g.cols + c)
        (fun hc => hj hc.2.2)
      exact ⟨hfr.1.trans hf.1, by rw [hfr.2.1]; exact hf.2.1,
        by rw [hfr.2.2.1]; exact hf.2.2.1, hfr.2.2.2.mpr hf.2.2.2⟩
  · unfold strikeCell
    rw [if_neg hin]
    exact hf

lemma mem_intRange (r0 r1 r : ℤ) (h0 : r0 ≤ r) (h1 : r ≤ r1) : r ∈ intRange r0 r1 := by
  unfold intRange
  simp only [List.mem_map, List.mem_range]
  refine ⟨(r - r0).toNat, by omega, ?_⟩
  omega

end MatrixTrails

namespace MatrixTrails

lemma bounds_of_mem_intRange (r0 r1 rx : ℤ) (h : rx ∈ intRange r0 r1) :
    r0 ≤ rx ∧ rx ≤ r1 := by
  unfold intRange at h
  simp only [List.mem_map, List.mem_range] at h
  obtain ⟨j, hj, hje⟩ := h
  omega

lemma strikeFold_const (p : SimParams) (o : DropOracle) (c : ℕ) (rs : List ℤ) :
    ∀ g : Grid,
      ((rs.foldl (strikeCell p o c) g).cols = g.cols
      ∧ (rs.foldl (strikeCell p o c) g).rows = g.rows
      ∧ (rs.foldl (strikeCell p o c) g).baseChars = g.baseChars
      ∧ (rs.foldl (strikeCell p o c) g).hitMask = g.hitMask
      ∧ (rs.foldl (strikeCell p o c) g).dropPos = g.dropPos
      ∧ (rs.foldl (strikeCell p o c) g).dropSpd = g.dropSpd) := by
  induction rs with
  | nil => intro g; exact ⟨rfl, rfl, rfl, rfl, rfl, rfl⟩
  | cons rh rest ih =>
    intro g
    rw [List.foldl_cons]
    obtain ⟨a1, a2, a3, a4, a5, a6⟩ := ih (strikeCell p o c g rh)
    obtain ⟨b1, b2, b3, b4, b5, b6⟩ := strikeCell_const p o c g rh
    exact ⟨a1.trans b1, a2.trans b2, a3.trans b3, a4.trans b4, a5.trans b5, a6.trans b6⟩

lemma strikeFold_activeInv (p : SimParams) (o : DropOracle) (c : ℕ) (rs : List ℤ) :
    ∀ g : Grid, ActiveInv g → ActiveInv (rs.foldl (strikeCell p o c) g) := by
  induction rs with
  | nil => intro g h; exact h
  | cons rh rest ih =>
    intro g h
    rw [List.foldl_cons]
    exact ih _ (strikeCell_activeInv p o c g rh h)

lemma strikeFold_persist (p : SimParams) (o : DropOracle) (c : ℕ) (r0 : ℤ) (hr00 : 0 ≤ r0)
    (inj : ℚ) (rs : List ℤ) :
    ∀ g : Grid, 0 < g.cols → inj ≤ injStrength p g (r0.toNat * g.cols + c) →
      StruckFacts (o.repl c r0) inj (r0.toNat * g.cols + c) g →
      StruckFacts (o.repl c r0) inj (r0.toNat * g.cols + c) (rs.foldl (strikeCell p o c) g) := by
  induction rs with
  | nil => intro g _ _ hf; exact hf
  | cons rh rest ih =>
    intro g hcols hle hf
    rw [List.foldl_cons]
    have hconst := strikeCell_const p o c g rh
    have hsc := strikeCell_persist p o c g rh r0 hcols hr00 inj hle hf
    have hmask : injStrength p (strikeCell p o c g rh) = injStrength p g :=
      injStrength_congr p _ g hconst.2.2.2.1
    have hres := ih (strikeCell p o c g rh) (by rw [hconst.1]; exact hcols)
      (by rw [hconst.1, hmask]; exact hle)
      (by rw [hconst.1]; exact hsc)
    rw [hconst.1] at hres
    exact hres

lemma strikeFold_strike (p : SimParams) (o : DropOracle) (c : ℕ) (r : ℤ) (hr0 : 0 ≤ r)
    (rs : List ℤ) :
    ∀ g : Grid, r ∈ rs → 0 < g.cols → r < (g.rows : ℤ) → ActiveInv g →
      StruckFacts (o.repl c r) (injStrength p g (r.toNat * g.cols + c)) (r.toNat * g.cols + c)
        (rs.foldl (strikeCell p o c) g) := by
  induction rs with
  | nil => intro g hmem; simp at hmem
  | cons rh rest ih =>
    intro g hmem hcols hrr hinv
    rw [List.foldl_cons]
    by_cases hrh : rh = r
    · subst hrh
      have hfm : g.activeFlag (rh.toNat * g.cols + c) = true →
          (rh.toNat * g.cols + c) ∈ g.active := fun hc => (hinv.2 _).mp hc
      have hst := strikeCell_strike p o c g rh hr0 hrr hfm
      have hconst := strikeCell_const p o c g rh
      have hmask : injStrength p (strikeCell p o c g rh) = injStrength p g :=
        injStrength_congr p _ g hconst.2.2.2.1
      have hres := strikeFold_persist p o c rh hr0
        (injStrength p g (rh.toNat * g.cols + c)) rest (strikeCell p o c g rh)
        (by rw [hconst.1]; exact hcols)
        (by rw [hconst.1, hmask])
        (by rw [hconst.1]; exact hst)
      rw [hconst.1] at hres
      exact hres
    · have hmem' : rh = r ∨ r ∈ rest := by
        rcases List.mem_cons.mp hmem with e | e
        · exact Or.inl e.symm
        · exact Or.inr e
      have hmem'' : r ∈ rest := hmem'.resolve_left hrh
      have hconst := strikeCell_const p o c g rh
      have hmask : injStrength p (strikeCell p o c g rh) = injStrength p g :=
        injStrength_congr p _ g hconst.2.2.2.1
      have ihres := ih (strikeCell p o c g rh) hmem'' (by rw [hconst.1]; exact hcols)
        (by rw [hconst.2.1]; exact hrr) (strikeCell_activeInv p o c g rh hinv)
      rw [hconst.1, hmask] at ihres
      exact ihres

lemma strikeFold_frame (p : SimParams) (o : DropOracle) (c : ℕ) (j : ℕ) (rs : List ℤ) :
    ∀ g : Grid, (∀ rx ∈ rs, ¬(0 ≤ rx ∧ rx < (g.rows : ℤ) ∧ rx.toNat * g.cols + c = j)) →
      (rs.foldl (strikeCell p o c) g).wallChars j = g.wallChars j
      ∧ (rs.foldl (strikeCell p o c) g).trail j = g.trail j
      ∧ (rs.foldl (strikeCell p o c) g).activeFlag j = g.activeFlag j
      ∧ (j ∈ (rs.foldl (strikeCell p o c) g).active ↔ j ∈ g.active) := by
  induction rs with
  | nil => intro g _; exact ⟨rfl, rfl, rfl, Iff.rfl⟩
  | cons rh rest ih =>
    intro g hmiss
    rw [List.foldl_cons]
    have hconst := strikeCell_const p o c g rh
    have hfr := strikeCell_frame p o c g rh j (hmiss rh (List.mem_cons_self _ _))
    have ihres := ih (strikeCell p o c g rh) (by
      intro rx hrx
      rw [hconst.2.1, hconst.1]
      exact hmiss rx (List.mem_cons_of_mem _ hrx))
    refine ⟨ihres.1.trans hfr.1, ihres.2.1.trans hfr.2.1, ihres.2.2.1.trans hfr.2.2.1,
      ihres.2.2.2.trans hfr.2.2.2⟩

end MatrixTrails

namespace MatrixTrails

lemma storeDropPos_parts (c : ℕ) (next : ℚ) (g : Grid) :
    (storeDropPos c next g).cols = g.cols
    ∧ (storeDropPos c next g).rows = g.rows
    ∧ (storeDropPos c next g).baseChars = g.baseChars
    ∧ (storeDropPos c next g).hitMask = g.hitMask
    ∧ (storeDropPos c next g).wallChars = g.wallChars
    ∧ (storeDropPos c next g).trail = g.trail
    ∧ (storeDropPos c next g).activeFlag = g.activeFlag
    ∧ (storeDropPos c next g).active = g.active
    ∧ (storeDropPos c next g).dropSpd = g.dropSpd
    ∧ (∀ c', c' ≠ c → (storeDropPos c next g).dropPos c' = g.dropPos c') := by
  refine ⟨rfl, rfl, rfl, rfl, rfl, rfl, rfl, rfl, rfl, ?_⟩
  intro c' hc'
  exact upd_ne _ _ _ _ hc'

lemma respawnCheck_parts (o : DropOracle) (c : ℕ) (g : Grid) :
    (respawnCheck o c g).cols = g.cols
    ∧ (respawnCheck o c g).rows = g.rows
    ∧ (respawnCheck o c g).baseChars = g.baseChars
    ∧ (respawnCheck o c g).hitMask = g.hitMask
    ∧ (respawnCheck o c g).wallChars = g.wallChars
    ∧ (respawnCheck o c g).trail = g.trail
    ∧ (respawnCheck o c g).activeFlag = g.activeFlag
    ∧ (respawnCheck o c g).active = g.active
    ∧ (∀ c', c' ≠ c → (respawnCheck o c g).dropPos c' = g.dropPos c'
        ∧ (respawnCheck o c g).dropSpd c' = g.dropSpd c') := by
  unfold respawnCheck
  split
  · refine ⟨rfl, rfl, rfl, rfl, rfl, rfl, rfl, rfl, ?_⟩
    intro c' hc'
    exact ⟨upd_ne _ _ _ _ hc', upd_ne _ _ _ _ hc'⟩
  · exact ⟨rfl, rfl, rfl, rfl, rfl, rfl, rfl, rfl, fun c' _ => ⟨rfl, rfl⟩⟩

lemma StruckFacts_congr (cp : ℕ) (inj : ℚ) (idx : ℕ) (g' g : Grid)
    (hw : g'.wallChars = g.wallChars) (ht : g'.trail = g.trail)
    (hf : g'.activeFlag = g.activeFlag) (ha : g'.active = g.active)
    (h : StruckFacts cp inj idx g) : StruckFacts cp inj idx g' := by
  unfold StruckFacts at *
  rw [hw, ht, hf, ha]
  exact h

/-- `stepColumn` projected onto the non-drop fields equals the strike fold. -/
lemma stepColumn_core (p : SimParams) (o : DropOracle) (g : Grid) (c : ℕ) :
    (stepColumn p o g c).cols
        = ((intRange ⌊g.dropPos c⌋ ⌊g.dropPos c + g.dropSpd c⌋).foldl (strikeCell p o c) g).cols
    ∧ (stepColumn p o g c).rows
        = ((intRange ⌊g.dropPos c⌋ ⌊g.dropPos c + g.dropSpd c⌋).foldl (strikeCell p o c) g).rows
    ∧ (stepColumn p o g c).baseChars
        = ((intRange ⌊g.dropPos c⌋ ⌊g.dropPos c + g.dropSpd c⌋).foldl (strikeCell p o c) g).baseChars
    ∧ (stepColumn p o g c).hitMask
        = ((intRange ⌊g.dropPos c⌋ ⌊g.dropPos c + g.dropSpd c⌋).foldl (strikeCell p o c) g).hitMask
    ∧ (stepColumn p o g c).wallChars
        = ((intRange ⌊g.dropPos c⌋ ⌊g.dropPos c + g.dropSpd c⌋).foldl (strikeCell p o c) g).wallChars
    ∧ (stepColumn p o g c).trail
        = ((intRange ⌊g.dropPos c⌋ ⌊g.dropPos c + g.dropSpd c⌋).foldl (strikeCell p o c) g).trail
    ∧ (stepColumn p o g c).activeFlag
        = ((intRange ⌊g.dropPos c⌋ ⌊g.dropPos c + g.dropSpd c⌋).foldl (strikeCell p o c) g).activeFlag
    ∧ (stepColumn p o g c).active
        = ((intRange ⌊g.dropPos c⌋ ⌊g.dropPos c + g.dropSpd c⌋).foldl (strikeCell p o c) g).active := by
  unfold stepColumn
  have hrp := respawnCheck_parts o c
    (storeDropPos c (g.dropPos c + g.dropSpd c)
      ((intRange ⌊g.dropPos c⌋ ⌊g.dropPos c + g.dropSpd c⌋).foldl (strikeCell p o c) g))
  have hsp := storeDropPos_parts c (g.dropPos c + g.dropSpd c)
    ((intRange ⌊g.dropPos c⌋ ⌊g.dropPos c + g.dropSpd c⌋).foldl (strikeCell p o c) g)
  exact ⟨hrp.1.trans hsp.1, hrp.2.1.trans hsp.2.1, hrp.2.2.1.trans hsp.2.2.1,
    hrp.2.2.2.1.trans hsp.2.2.2.1, hrp.2.2.2.2.1.trans hsp.2.2.2.2.1,
    hrp.2.2.2.2.2.1.trans hsp.2.2.2.2.2.1, hrp.2.2.2.2.2.2.1.trans hsp.2.2.2.2.2.2.1,
    hrp.2.2.2.2.2.2.2.1.trans hsp.2.2.2.2.2.2.2.1⟩

lemma stepColumn_const (p : SimParams) (o : DropOracle) (g : Grid) (c : ℕ) :
    (stepColumn p o g c).cols = g.cols
    ∧ (stepColumn p o g c).rows = g.rows
    ∧ (stepColumn p o g c).baseChars = g.baseChars
    ∧ (stepColumn p o g c).hitMask = g.hitMask
    ∧ (∀ c', c' ≠ c → (stepColumn p o g c).dropPos c' = g.dropPos c'
        ∧ (stepColumn p o g c).dropSpd c' = g.dropSpd c') := by
  have hcore := stepColumn_core p o g c
  have hfold := strikeFold_const p o c (intRange ⌊g.dropPos c⌋ ⌊g.dropPos c + g.dropSpd c⌋) g
  refine ⟨hcore.1.trans hfold.1, hcore.2.1.trans hfold.2.1, hcore.2.2.1.trans hfold.2.2.1,
    hcore.2.2.2.1.trans hfold.2.2.2.1, ?_⟩
  intro c' hc'
  unfold stepColumn
  have hrp := respawnCheck_parts o c
    (storeDropPos c (g.dropPos c + g.dropSpd c)
      ((intRange ⌊g.dropPos c⌋ ⌊g.dropPos c + g.dropSpd c⌋).foldl (strikeCell p o c) g))
  have hsp := storeDropPos_parts c (g.dropPos c + g.dropSpd c)
    ((intRange ⌊g.dropPos c⌋ ⌊g.dropPos c + g.dropSpd c⌋).foldl (strikeCell p o c) g)
  constructor
  · rw [(hrp.2.2.2.2.2.2.2.2 c' hc').1, hsp.2.2.2.2.2.2.2.2.2 c' hc',
      congrFun hfold.2.2.2.2.1 c']
  · rw [(hrp.2.2.2.2.2.2.2.2 c' hc').2, congrFun hsp.2.2.2.2.2.2.2.2.1 c',
      congrFun hfold.2.2.2.2.2 c']

lemma stepColumn_activeInv (p : SimParams) (o : DropOracle) (g : Grid) (c : ℕ)
    (hinv : ActiveInv g) : ActiveInv (stepColumn p o g c) := by
  have hcore := stepColumn_core p o g c
  have hfoldinv := strikeFold_activeInv p o c
    (intRange ⌊g.dropPos c⌋ ⌊g.dropPos c + g.dropSpd c⌋) g hinv
  constructor
  · rw [hcore.2.2.2.2.2.2.2]
    exact hfoldinv.1
  · intro j
    rw [congrFun hcore.2.2.2.2.2.2.1 j, hcore.2.2.2.2.2.2.2]
    exact hfoldinv.2 j

end MatrixTrails

namespace MatrixTrails

lemma struck_mod (cols c' : ℕ) (rx : ℤ) (hc' : c' < cols) :
    (rx.toNat * cols + c') % cols = c' := by
  rw [Nat.add_comm, Nat.add_mul_mod_self_right]
  exact Nat.mod_eq_of_lt hc'

lemma struck_div (cols c' : ℕ) (rx : ℤ) (hc' : c' < cols) :
    (rx.toNat * cols + c') / cols = rx.toNat := by
  rw [Nat.add_comm, Nat.mul_comm, Nat.add_mul_div_left _ _ (by omega : 0 < cols),
    Nat.div_eq_of_lt hc']
  omega

lemma stepColumn_persist (p : SimParams) (o : DropOracle) (h : Grid) (c' : ℕ)
    (cp : ℕ) (inj : ℚ) (idx : ℕ) (hc' : c' < h.cols) (hmod : idx % h.cols ≠ c')
    (hf : StruckFacts cp inj idx h) : StruckFacts cp inj idx (stepColumn p o h c') := by
  have hcore := stepColumn_core p o h c'
  have hfr := strikeFold_frame p o c' idx
    (intRange ⌊h.dropPos c'⌋ ⌊h.dropPos c' + h.dropSpd c'⌋) h (by
      intro rx hrx hcontra
      obtain ⟨hrx0, hrxr, hre⟩ := hcontra
      apply hmod
      rw [← hre]
      exact struck_mod h.cols c' rx hc')
  refine ⟨?_, ?_, ?_, ?_⟩
  · rw [congrFun hcore.2.2.2.2.1 idx, hfr.1]; exact hf.1
  · rw [congrFun hcore.2.2.2.2.2.1 idx, hfr.2.1]; exact hf.2.1
  · rw [congrFun hcore.2.2.2.2.2.2.1 idx, hfr.2.2.1]; exact hf.2.2.1
  · rw [hcore.2.2.2.2.2.2.2]; exact hfr.2.2.2.mpr hf.2.2.2

lemma stepColumn_frame (p : SimParams) (o : DropOracle) (h : Grid) (c' : ℕ) (j : ℕ)
    (hc' : c' < h.cols)
    (hcond : c' ≠ j % h.cols ∨
      ¬(⌊h.dropPos c'⌋ ≤ ((j / h.cols : ℕ) : ℤ)
        ∧ ((j / h.cols : ℕ) : ℤ) ≤ ⌊h.dropPos c' + h.dropSpd c'⌋
        ∧ j / h.cols < h.rows)) :
    (stepColumn p o h c').wallChars j = h.wallChars j
    ∧ (stepColumn p o h c').trail j = h.trail j
    ∧ (stepColumn p o h c').activeFlag j = h.activeFlag j
    ∧ (j ∈ (stepColumn p o h c').active ↔ j ∈ h.active) := by
  have hcore := stepColumn_core p o h c'
  have hfr := strikeFold_frame p o c' j
    (intRange ⌊h.dropPos c'⌋ ⌊h.dropPos c' + h.dropSpd c'⌋) h (by
      intro rx hrx hcontra
      obtain ⟨hrx0, hrxr, hre⟩ := hcontra
      rcases hcond with hne | hns
      · apply hne
        rw [← hre]
        exact (struck_mod h.cols c' rx hc').symm
      · apply hns
        have hdiv : j / h.cols = rx.toNat := by
          rw [← hre]
          exact struck_div h.cols c' rx hc'
        have hbounds := bounds_of_mem_intRange _ _ rx hrx
        have hrxcast : ((j / h.cols : ℕ) : ℤ) = rx := by
          rw [hdiv]
          exact Int.toNat_of_nonneg hrx0
        refine ⟨?_, ?_, ?_⟩
        · rw [hrxcast]; exact hbounds.1
        · rw [hrxcast]; exact hbounds.2
        · rw [hdiv]; omega)
  refine ⟨?_, ?_, ?_, ?_⟩
  · rw [congrFun hcore.2.2.2.2.1 j, hfr.1]
  · rw [congrFun hcore.2.2.2.2.2.1 j, hfr.2.1]
  · rw [congrFun hcore.2.2.2.2.2.2.1 j, hfr.2.2.1]
  · rw [hcore.2.2.2.2.2.2.2]; exact hfr.2.2.2

end MatrixTrails

namespace MatrixTrails

lemma colsFold_const (p : SimParams) (o : DropOracle) (L : List ℕ) :
    ∀ h : Grid,
      (L.foldl (stepColumn p o) h).cols = h.cols
      ∧ (L.foldl (stepColumn p o) h).rows = h.rows
      ∧ (L.foldl (stepColumn p o) h).baseChars = h.baseChars
      ∧ (L.foldl (stepColumn p o) h).hitMask = h.hitMask
      ∧ (∀ c', c' ∉ L → (L.foldl (stepColumn p o) h).dropPos c' = h.dropPos c'
          ∧ (L.foldl (stepColumn p o) h).dropSpd c' = h.dropSpd c') := by
  induction L with
  | nil => intro h; exact ⟨rfl, rfl, rfl, rfl, fun _ _ => ⟨rfl, rfl⟩⟩
  | cons ch rest ih =>
    intro h
    rw [List.foldl_cons]
    obtain ⟨a1, a2, a3, a4, a5⟩ := ih (stepColumn p o h ch)
    obtain ⟨b1, b2, b3, b4, b5⟩ := stepColumn_const p o h ch
    refine ⟨a1.trans b1, a2.trans b2, a3.trans b3, a4.trans b4, ?_⟩
    intro c' hc'
    have hc1 : c' ∉ rest := fun hc => hc' (List.mem_cons_of_mem _ hc)
    have hc2 : c' ≠ ch := fun hc => hc' (hc ▸ List.mem_cons_self _ _)
    obtain ⟨d1, d2⟩ := a5 c' hc1
    obtain ⟨e1, e2⟩ := b5 c' hc2
    exact ⟨d1.trans e1, d2.trans e2⟩

lemma colsFold_activeInv (p : SimParams) (o : DropOracle) (L : List ℕ) :
    ∀ h : Grid, ActiveInv h → ActiveInv (L.foldl (stepColumn p o) h) := by
  induction L with
  | nil => intro h hi; exact hi
  | cons ch rest ih =>
    intro h hi
    rw [List.foldl_cons]
    exact ih _ (stepColumn_activeInv p o h ch hi)

lemma colsFold_persist (p : SimParams) (o : DropOracle) (cp : ℕ) (inj : ℚ) (idx : ℕ)
    (L : List ℕ) :
    ∀ h : Grid, (∀ c'' ∈ L, c'' < h.cols ∧ c'' ≠ idx % h.cols) →
      StruckFacts cp inj idx h → StruckFacts cp inj idx (L.foldl (stepColumn p o) h) := by
  induction L with
  | nil => intro h _ hf; exact hf
  | cons ch rest ih =>
    intro h hcc hf
    rw [List.foldl_cons]
    have hch := hcc ch (List.mem_cons_self _ _)
    have hconst := stepColumn_const p o h ch
    apply ih
    · intro c'' hc''
      rw [hconst.1]
      exact hcc c'' (List.mem_cons_of_mem _ hc'')
    · exact stepColumn_persist p o h ch cp inj idx hch.1 (fun e => hch.2 e.symm) hf

lemma colsFold_frame (p : SimParams) (o : DropOracle) (j : ℕ) (L : List ℕ) :
    ∀ h : Grid, L.Nodup → (∀ c'' ∈ L, c'' < h.cols) →
      (j % h.cols ∈ L →
        ¬(⌊h.dropPos (j % h.cols)⌋ ≤ ((j / h.cols : ℕ) : ℤ)
          ∧ ((j / h.cols : ℕ) : ℤ) ≤ ⌊h.dropPos (j % h.cols) + h.dropSpd (j % h.cols)⌋
          ∧ j / h.cols < h.rows)) →
      (L.foldl (stepColumn p o) h).wallChars j = h.wallChars j
      ∧ (L.foldl (stepColumn p o) h).trail j = h.trail j
      ∧ (L.foldl (stepColumn p o) h).activeFlag j = h.activeFlag j
      ∧ (j ∈ (L.foldl (stepColumn p o) h).active ↔ j ∈ h.active) := by
  induction L with
  | nil => intro h _ _ _; exact ⟨rfl, rfl, rfl, Iff.rfl⟩
  | cons ch rest ih =>
    intro h hnd hlt hmissc
    rw [List.foldl_cons]
    have hchlt := hlt ch (List.mem_cons_self _ _)
    have hconst := stepColumn_const p o h ch
    by_cases hjc : ch = j % h.cols
    · have hmiss := hmissc (hjc ▸ List.mem_cons_self _ _)
      have hfr := stepColumn_frame p o h ch j hchlt (Or.inr (by rw [hjc]; exact hmiss))
      have hrest := ih (stepColumn p o h ch) (List.nodup_cons.mp hnd).2
        (by intro c'' hc''; rw [hconst.1]; exact hlt c'' (List.mem_cons_of_mem _ hc''))
        (by
          intro hmem
          exfalso
          rw [hconst.1] at hmem
          rw [← hjc] at hmem
          exact (List.nodup_cons.mp hnd).1 hmem)
      exact ⟨hrest.1.trans hfr.1, hrest.2.1.trans hfr.2.1, hrest.2.2.1.trans hfr.2.2.1,
        hrest.2.2.2.trans hfr.2.2.2⟩
    · have hfr := stepColumn_frame p o h ch j hchlt (Or.inl hjc)
      have hrest := ih (stepColumn p o h ch) (List.nodup_cons.mp hnd).2
        (by intro c'' hc''; rw [hconst.1]; exact hlt c'' (List.mem_cons_of_mem _ hc''))
        (by
          intro hmem
          rw [hconst.1] at hmem ⊢
          rw [hconst.2.1]
          have hne : j % h.cols ≠ ch := fun e => hjc e.symm
          rw [(hconst.2.2.2.2 (j % h.cols) hne).1, (hconst.2.2.2.2 (j % h.cols) hne).2]
          exact hmissc (List.mem_cons_of_mem _ hmem))
      exact ⟨hrest.1.trans hfr.1, hrest.2.1.trans hfr.2.1, hrest.2.2.1.trans hfr.2.2.1,
        hrest.2.2.2.trans hfr.2.2.2⟩

end MatrixTrails

namespace MatrixTrails

lemma stepDrops_const (p : SimParams) (o : DropOracle) (g : Grid) :
    (stepDrops p o g).cols = g.cols
    ∧ (stepDrops p o g).rows = g.rows
    ∧ (stepDrops p o g).baseChars = g.baseChars
    ∧ (stepDrops p o g).hitMask = g.hitMask := by
  have h := colsFold_const p o (List.range g.cols) g
  exact ⟨h.1, h.2.1, h.2.2.1, h.2.2.2.1⟩

lemma stepDrops_activeInv (p : SimParams) (o : DropOracle) (g : Grid) (hinv : ActiveInv g) :
    ActiveInv (stepDrops p o g) :=
  colsFold_activeInv p o (List.range g.cols) g hinv

lemma stepDrops_strike (p : SimParams) (o : DropOracle) (g : Grid) (c : ℕ) (r : ℤ)
    (hinv : ActiveInv g) (hc : c < g.cols) (hr0 : 0 ≤ r) (hrr : r < (g.rows : ℤ))
    (hlo : ⌊g.dropPos c⌋ ≤ r) (hhi : r ≤ ⌊g.dropPos c + g.dropSpd c⌋) :
    StruckFacts (o.repl c r) (injStrength p g (r.toNat * g.cols + c)) (r.toNat * g.cols + c)
      (stepDrops p o g) := by
  unfold stepDrops
  have hsplit : List.range' 0 c ++ c :: List.range' (c + 1) (g.cols - (c + 1))
      = List.range g.cols := by
    have h3 : g.cols - c = (g.cols - (c + 1)) + 1 := by omega
    have h2 : c :: List.range' (c + 1) (g.cols - (c + 1)) = List.range' c (g.cols - c) := by
      rw [h3, List.range'_succ]
    rw [h2]
    have h4 := List.range'_append_1 0 c (g.cols - c)
    rw [Nat.zero_add] at h4
    rw [h4, List.range_eq_range']
    congr 1
    omega
  rw [← hsplit, List.foldl_append, List.foldl_cons]
  set g1 := (List.range' 0 c).foldl (stepColumn p o) g with hg1def
  have hg1 := colsFold_const p o (List.range' 0 c) g
  have hdropc : g1.dropPos c = g.dropPos c ∧ g1.dropSpd c = g.dropSpd c := by
    apply hg1.2.2.2.2
    rw [List.mem_range'_1]
    omega
  have hg1inv := colsFold_activeInv p o (List.range' 0 c) g hinv
  have hcore := stepColumn_core p o g1 c
  have hfold := strikeFold_strike p o c r hr0
    (intRange ⌊g1.dropPos c⌋ ⌊g1.dropPos c + g1.dropSpd c⌋) g1
    (by rw [hdropc.1, hdropc.2]; exact mem_intRange _ _ r hlo hhi)
    (by rw [hg1.1]; exact lt_of_le_of_lt (Nat.zero_le c) hc)
    (by rw [hg1.2.1]; exact hrr)
    hg1inv
  have hmid : StruckFacts (o.repl c r) (injStrength p g1 (r.toNat * g1.cols + c))
      (r.toNat * g1.cols + c) (stepColumn p o g1 c) := by
    refine ⟨?_, ?_, ?_, ?_⟩
    · rw [congrFun hcore.2.2.2.2.1 _]; exact hfold.1
    · rw [congrFun hcore.2.2.2.2.2.1 _]; exact hfold.2.1
    · rw [congrFun hcore.2.2.2.2.2.2.1 _]; exact hfold.2.2.1
    · rw [hcore.2.2.2.2.2.2.2]; exact hfold.2.2.2
  have hmask1 : injStrength p g1 = injStrength p g := injStrength_congr p g1 g hg1.2.2.2.1
  rw [hg1.1, hmask1] at hmid
  have hcols2 : (stepColumn p o g1 c).cols = g.cols := by
    rw [(stepColumn_const p o g1 c).1, hg1.1]
  exact colsFold_persist p o (o.repl c r) (injStrength p g (r.toNat * g.cols + c))
    (r.toNat * g.cols + c) (List.range' (c + 1) (g.cols - (c + 1))) (stepColumn p o g1 c)
    (by
      intro c'' hc''
      rw [List.mem_range'_1] at hc''
      constructor
      · rw [hcols2]; omega
      · rw [hcols2]
        rw [struck_mod g.cols c r hc]
        omega)
    hmid

lemma stepDrops_frame (p : SimParams) (o : DropOracle) (g : Grid) (j : ℕ)
    (hns : NotStruck g j) :
    (stepDrops p o g).wallChars j = g.wallChars j
    ∧ (stepDrops p o g).trail j = g.trail j
    ∧ (stepDrops p o g).activeFlag j = g.activeFlag j
    ∧ (j ∈ (stepDrops p o g).active ↔ j ∈ g.active) := by
  unfold stepDrops
  exact colsFold_frame p o j (List.range g.cols) g (List.nodup_range _)
    (fun c'' hc'' => List.mem_range.mp hc'') (fun _ => hns)

end MatrixTrails

namespace SweepHighlight

/-- Stop lists whose positions increase by more than the `1e-6` denominator
floor between consecutive entries. -/
def GapSorted (stops : List GradientStop) : Prop :=
  stops.Pairwise (fun a b => a.p + 1/1000000 ≤ b.p)

lemma gapSorted_sorted {l : List GradientStop} (h : GapSorted l) : List.Sorted stopLe l := by
  refine List.Pairwise.imp ?_ h
  intro a b hab
  unfold stopLe
  linarith

lemma sortStops_eq_self {l : List GradientStop} (h : List.Sorted stopLe l) :
    sortStops l = l :=
  List.Sorted.insertionSort_eq h

lemma gapSorted_getD_lt {l : List GradientStop} (h : GapSorted l) (d : GradientStop)
    (i j : ℕ) (hij : i < j) (hj : j < l.length) :
    (l.getD i d).p + 1/1000000 ≤ (l.getD j d).p := by
  have hi : i < l.length := lt_trans hij hj
  rw [getD_of_lt l i d hi, getD_of_lt l j d hj]
  exact (List.pairwise_iff_get.mp h) ⟨i, hi⟩ ⟨j, hj⟩ hij

lemma gapSorted_tail {a : GradientStop} {l : List GradientStop}
    (h : GapSorted (a :: l)) : GapSorted l := (List.pairwise_cons.mp h).2

lemma interpSegments_spec (d : GradientStop) :
    ∀ (i : ℕ) (l : List GradientStop) (u : ℚ), GapSorted l → i + 1 < l.length →
      (l.getD i d).p < u → u < (l.getD (i + 1) d).p →
      interpSegments l u
        = (l.getD i d).v + ((l.getD (i + 1) d).v - (l.getD i d).v)
            * ((u - (l.getD i d).p) / ((l.getD (i + 1) d).p - (l.getD i d).p)) := by
  intro i
  induction i with
  | zero =>
    intro l u hs hlen h1 h2
    rcases l with _ | ⟨a, l2⟩
    · simp at hlen
    rcases l2 with _ | ⟨b, rest⟩
    · simp at hlen
    simp only [List.getD_cons_zero, List.getD_cons_succ] at h1 h2 ⊢
    have hgap : a.p + 1/1000000 ≤ b.p :=
      (List.pairwise_cons.mp hs).1 b (List.mem_cons_self _ _)
    simp only [interpSegments]
    rw [if_pos ⟨le_of_lt h1, le_of_lt h2⟩]
    rw [max_eq_right (by linarith : (1:ℚ)/1000000 ≤ b.p - a.p)]
  | succ i ih =>
    intro l u hs hlen h1 h2
    rcases l with _ | ⟨a, l2⟩
    · simp at hlen
    rcases l2 with _ | ⟨b, rest⟩
    · simp only [List.length_cons, List.length_nil] at hlen
      omega
    simp only [List.getD_cons_succ] at h1 h2 ⊢
    have hb_le : b.p ≤ ((b :: rest).getD i d).p := by
      rcases Nat.eq_zero_or_pos i with hi0 | hip
      · subst hi0
        simp
      · have hlt := gapSorted_getD_lt (gapSorted_tail hs) d 0 i hip (by
          simp only [List.length_cons] at hlen ⊢
          omega)
        simp only [List.getD_cons_zero] at hlt
        linarith
    have hnot : ¬(a.p ≤ u ∧ u ≤ b.p) := by
      rintro ⟨_, hub⟩
      have : b.p < u := lt_of_le_of_lt hb_le h1
      linarith
    simp only [interpSegments]
    rw [if_neg hnot]
    exact ih (b :: rest) u (gapSorted_tail hs)
      (by simp only [List.length_cons] at hlen ⊢; omega) h1 h2

lemma evalGradient_unlocked (stops : List GradientStop) (u : ℚ) (hne : stops.length ≠ 0) :
    evalGradient stops u false
      = (if u ≤ ((sortStops stops).getD 0 ⟨0, 0⟩).p then ((sortStops stops).getD 0 ⟨0, 0⟩).v
         else if ((sortStops stops).getD ((sortStops stops).length - 1) ⟨0, 0⟩).p ≤ u then
           ((sortStops stops).getD ((sortStops stops).length - 1) ⟨0, 0⟩).v
         else interpSegments (sortStops stops) u) := by
  unfold evalGradient
  rw [if_neg (by simp), if_neg hne]

lemma sweepCenter_eq (nowMs periodMs phase overscan : ℚ) :
    sweepCenter nowMs periodMs phase overscan
      = -overscan + jsMod1 (nowMs / periodMs + phase) * (1 + 2 * overscan) := rfl

lemma jsMod1_of_nonneg (q : ℚ) (h : 0 ≤ q) : jsMod1 q = Int.fract q := if_pos h

lemma sweepCenter_periodic (nowMs periodMs phase overscan : ℚ)
    (hn : 0 ≤ nowMs) (hp : 0 < periodMs) (hph : 0 ≤ phase) :
    sweepCenter (nowMs + periodMs) periodMs phase overscan
      = sweepCenter nowMs periodMs phase overscan := by
  rw [sweepCenter_eq, sweepCenter_eq]
  have h1 : (nowMs + periodMs) / periodMs + phase = (nowMs / periodMs + phase) + 1 := by
    field_simp
    ring
  have h0 : 0 ≤ nowMs / periodMs + phase := by positivity
  rw [h1, jsMod1_of_nonneg _ (by linarith), jsMod1_of_nonneg _ h0, Int.fract_add_one]

lemma sweepCenter_mem (nowMs periodMs phase overscan : ℚ)
    (hn : 0 ≤ nowMs) (hp : 0 < periodMs) (hph : 0 ≤ phase) (ho : 0 ≤ overscan) :
    -overscan ≤ sweepCenter nowMs periodMs phase overscan
    ∧ sweepCenter nowMs periodMs phase overscan ≤ 1 + overscan := by
  rw [sweepCenter_eq]
  have h0 : 0 ≤ nowMs / periodMs + phase := by positivity
  rw [jsMod1_of_nonneg _ h0]
  have h1 : 0 ≤ Int.fract (nowMs / periodMs + phase) := Int.fract_nonneg _
  have h2 : Int.fract (nowMs / periodMs + phase) < 1 := Int.fract_lt_one _
  constructor
  · nlinarith
  · nlinarith

lemma drawCenter_eq (speed halfWRaw nowMs phase : ℚ) :
    drawCenter speed halfWRaw nowMs phase
      = sweepCenter nowMs (max (1/2) speed * 1000) phase
          (jsClamp halfWRaw (1/20) (3/5) + 1/10) := rfl

end SweepHighlight

lemma jsClamp_le_hi (n a b : ℚ) : jsClamp n a b ≤ b := min_le_left _ _

lemma jsClamp_lo_le (n a b : ℚ) (h : a ≤ b) : a ≤ jsClamp n a b :=
  le_min h (le_max_left _ _)

namespace MatrixTrails

lemma buildColIndex_filter (cols : ℕ) (lit : ℕ → Bool) :
    ∀ n c, buildColIndex cols n lit c
      = (List.range n).filter (fun i => lit i && decide (i % cols = c)) := by
  intro n
  induction n with
  | zero =>
    intro c
    rfl
  | succ n ih =>
    intro c
    have hstep : buildColIndex cols (n + 1) lit
        = (fun tmp i => if lit i then upd tmp (i % cols) (tmp (i % cols) ++ [i]) else tmp)
            (buildColIndex cols n lit) n := by
      unfold buildColIndex
      rw [List.range_succ, List.foldl_append, List.foldl_cons, List.foldl_nil]
    rw [hstep, List.range_succ, List.filter_append]
    by_cases hl : lit n = true
    · simp only [hl, if_true]
      by_cases hc : n % cols = c
      · subst hc
        simp only [upd_same]
        rw [ih (n % cols)]
        simp [hl]
      · rw [upd_ne _ _ _ _ (fun e => hc e.symm)]
        rw [ih c]
        simp [hl, hc]
    · rw [Bool.not_eq_true] at hl
      simp only [hl, Bool.false_eq_true, if_false]
      rw [ih c]
      simp [hl]

lemma rasterizeHitMask_frame (data : ℕ → Bool) (cols rows : ℕ) (g : Grid) :
    (rasterizeHitMask data cols rows g).cols = g.cols
    ∧ (rasterizeHitMask data cols rows g).rows = g.rows
    ∧ (rasterizeHitMask data cols rows g).wallChars = g.wallChars
    ∧ (rasterizeHitMask data cols rows g).baseChars = g.baseChars
    ∧ (rasterizeHitMask data cols rows g).twPhase = g.twPhase
    ∧ (rasterizeHitMask data cols rows g).twSpeed = g.twSpeed
    ∧ (rasterizeHitMask data cols rows g).trail = g.trail
    ∧ (rasterizeHitMask data cols rows g).active = g.active
    ∧ (rasterizeHitMask data cols rows g).activeFlag = g.activeFlag
    ∧ (rasterizeHitMask data cols rows g).dropPos = g.dropPos
    ∧ (rasterizeHitMask data cols rows g).dropSpd = g.dropSpd := by
  unfold rasterizeHitMask
  split
  · exact ⟨rfl, rfl, rfl, rfl, rfl, rfl, rfl, rfl, rfl, rfl, rfl⟩
  · exact ⟨rfl, rfl, rfl, rfl, rfl, rfl, rfl, rfl, rfl, rfl, rfl⟩

lemma rasterizeHitMask_mask (data : ℕ → Bool) (cols rows : ℕ) (g : Grid)
    (hc : cols ≠ 0) (hr : rows ≠ 0) :
    (rasterizeHitMask data cols rows g).hitMask
      = (fun i => if i < cols * rows then data i else g.hitMask i)
    ∧ (rasterizeHitMask data cols rows g).hiByCol = buildColIndex cols (cols * rows) data := by
  unfold rasterizeHitMask
  rw [if_neg (by tauto)]
  exact ⟨rfl, rfl⟩

lemma rasterizeHitMask_activeInv (data : ℕ → Bool) (cols rows : ℕ) (g : Grid)
    (h : ActiveInv g) : ActiveInv (rasterizeHitMask data cols rows g) := by
  unfold rasterizeHitMask
  split
  · exact h
  · exact h

lemma mt_buildFixedPool_eq (s : List Char) :
    buildFixedPool s
      = (if (if (jsTrim s).isEmpty then "你好世界".toList else jsTrim s).length = 0 then [0x4e00]
         else (if (jsTrim s).isEmpty then "你好世界".toList else jsTrim s).map jsCodePoint) := rfl

lemma mt_pool_fallback (s : List Char) (h : jsTrim s = []) :
    buildFixedPool s = "你好世界".toList.map jsCodePoint := by
  rw [mt_buildFixedPool_eq, h]
  norm_num

lemma mt_pool_ne_nil (s : List Char) : buildFixedPool s ≠ [] := by
  rw [mt_buildFixedPool_eq]
  by_cases hl : (if (jsTrim s).isEmpty then "你好世界".toList else jsTrim s).length = 0
  · rw [if_pos hl]
    simp
  · rw [if_neg hl]
    intro hcon
    rw [List.map_eq_nil_iff] at hcon
    rw [hcon] at hl
    exact hl rfl

lemma jsTrim_of_all_ws (s : List Char) (h : ∀ c ∈ s, c.isWhitespace = true) : jsTrim s = [] := by
  unfold jsTrim
  have h1 : s.dropWhile Char.isWhitespace = [] := by
    rw [List.dropWhile_eq_nil_iff]
    exact fun x hx => h x hx
  rw [h1]
  simp

end MatrixTrails

namespace SweepHighlight

lemma sweep_buildFixedPool_eq (ts : List (List Char)) :
    buildFixedPool ts
      = (if ((ts.map jsTrim).filter (fun t => !t.isEmpty)).length = 0 then [0x4e00]
         else (((ts.map jsTrim).filter (fun t => !t.isEmpty)).map
             (fun t => t.map jsCodePoint)).flatten) := rfl

lemma sweep_pool_fallback (ts : List (List Char)) (h : ∀ t ∈ ts, jsTrim t = []) :
    buildFixedPool ts = [0x4e00] := by
  rw [sweep_buildFixedPool_eq]
  have hf : (ts.map jsTrim).filter (fun t => !t.isEmpty) = [] := by
    rw [List.filter_eq_nil_iff]
    intro a ha
    rw [List.mem_map] at ha
    obtain ⟨t, ht, rfl⟩ := ha
    rw [h t ht]
    simp
  rw [hf]
  rfl

lemma sweep_pool_ne_nil (ts : List (List Char)) : buildFixedPool ts ≠ [] := by
  rw [sweep_buildFixedPool_eq]
  by_cases hl : ((ts.map jsTrim).filter (fun t => !t.isEmpty)).length = 0
  · rw [if_pos hl]
    simp
  · rw [if_neg hl]
    intro hcon
    rw [List.flatten_eq_nil_iff] at hcon
    have hne : (ts.map jsTrim).filter (fun t => !t.isEmpty) ≠ [] := by
      intro e
      rw [e] at hl
      exact hl rfl
    rcases List.exists_mem_of_ne_nil _ hne with ⟨x, hx⟩
    have hxe : ¬x.isEmpty := by simpa using List.of_mem_filter hx
    have hmap : x.map jsCodePoint
        ∈ ((ts.map jsTrim).filter (fun t => !t.isEmpty)).map (fun t => t.map jsCodePoint) :=
      List.mem_map_of_mem _ hx
    have hx0 := hcon _ hmap
    rw [List.map_eq_nil_iff] at hx0
    rw [hx0] at hxe
    exact hxe rfl

lemma fixedLen_pos (pool : List ℕ) : 0 < fixedLen pool := by
  unfold fixedLen
  split
  · omega
  · omega

end SweepHighlight

namespace MatrixTrails

lemma stripeRowsFor_pos (cols : ℕ) : 1 ≤ stripeRowsFor cols := le_max_left _ _

lemma stripeRowsFor_budget (cols : ℕ) (h1 : 1 ≤ cols) (h2 : cols ≤ 2000) :
    stripeRowsFor cols * cols ≤ 2000 := by
  unfold stripeRowsFor
  rw [max_eq_right h1]
  have hdiv : 1 ≤ 2000 / cols := (Nat.one_le_div_iff (by omega)).mpr h2
  rw [max_eq_right hdiv]
  exact Nat.div_mul_le_self 2000 cols

lemma twinkleStripeAction_parts (cols rows : ℕ) (interval nowMs : ℚ) (st : StripeState) :
    (twinkleStripeAction cols rows interval nowMs st).rowsPainted
      = st.rowsPainted
        ++ List.range' st.twRowCursor
            (min rows (st.twRowCursor + stripeRowsFor cols) - st.twRowCursor)
    ∧ (twinkleStripeAction cols rows interval nowMs st).twRowCursor
      = (if rows ≤ st.twRowCursor + stripeRowsFor cols then 0
         else st.twRowCursor + stripeRowsFor cols)
    ∧ (twinkleStripeAction cols rows interval nowMs st).nextTwinkleAt = nowMs + interval :=
  ⟨rfl, rfl, rfl⟩

lemma maybeTwinkleStripe_eq (cols rows : ℕ) (twFpsRaw nowMs : ℚ) (st : StripeState) :
    maybeTwinkleStripe cols rows twFpsRaw nowMs st
      = (if jsClamp twFpsRaw 0 30 ≤ 0 then st
         else if nowMs < st.nextTwinkleAt then st
         else twinkleStripeAction cols rows (1000 / jsClamp twFpsRaw 0 30) nowMs st) := rfl

lemma maybeTwinkleStripe_fire (cols rows : ℕ) (twFpsRaw nowMs : ℚ) (st : StripeState)
    (hpos : 0 < jsClamp twFpsRaw 0 30) (hel : st.nextTwinkleAt ≤ nowMs) :
    maybeTwinkleStripe cols rows twFpsRaw nowMs st
      = twinkleStripeAction cols rows (1000 / jsClamp twFpsRaw 0 30) nowMs st := by
  rw [maybeTwinkleStripe_eq, if_neg (not_le.mpr hpos), if_neg (not_lt.mpr hel)]

end MatrixTrails

namespace MatrixTrails

lemma stripeIter_cover (cols rows : ℕ) (interval : ℚ) (ts : ℕ → ℚ) :
    ∀ (k : ℕ) (st : StripeState), st.twRowCursor < rows →
      rows ≤ st.twRowCursor + k * stripeRowsFor cols →
      st.twRowCursor + k * stripeRowsFor cols < rows + stripeRowsFor cols →
      (stripeIter cols rows interval ts k st).twRowCursor = 0
      ∧ (∀ x ∈ st.rowsPainted, x ∈ (stripeIter cols rows interval ts k st).rowsPainted)
      ∧ (∀ rr, st.twRowCursor ≤ rr → rr < rows →
          rr ∈ (stripeIter cols rows interval ts k st).rowsPainted) := by
  intro k
  induction k with
  | zero =>
    intro st hcur hub _
    exfalso
    simp only [Nat.zero_mul, Nat.add_zero] at hub
    omega
  | succ k ih =>
    intro st hcur hub hlb
    have hs1 : 1 ≤ stripeRowsFor cols := stripeRowsFor_pos cols
    obtain ⟨hp, hc, _⟩ := twinkleStripeAction_parts cols rows interval (ts k) st
    have hunf : stripeIter cols rows interval ts (k + 1) st
        = stripeIter cols rows interval ts k
            (twinkleStripeAction cols rows interval (ts k) st) := rfl
    rw [Nat.succ_mul] at hub hlb
    by_cases hend : rows ≤ st.twRowCursor + stripeRowsFor cols
    · have hk0 : k = 0 := by
        by_contra hk
        have hks : stripeRowsFor cols ≤ k * stripeRowsFor cols :=
          Nat.le_mul_of_pos_left _ (by omega)
        omega
      subst hk0
      rw [hunf]
      have hmin : min rows (st.twRowCursor + stripeRowsFor cols) = rows := min_eq_left hend
      refine ⟨?_, ?_, ?_⟩
      · show (twinkleStripeAction cols rows interval (ts 0) st).twRowCursor = 0
        rw [hc, if_pos hend]
      · intro x hx
        show x ∈ (twinkleStripeAction cols rows interval (ts 0) st).rowsPainted
        rw [hp]
        exact List.mem_append_left _ hx
      · intro rr h1 h2
        show rr ∈ (twinkleStripeAction cols rows interval (ts 0) st).rowsPainted
        rw [hp]
        refine List.mem_append_right _ ?_
        rw [List.mem_range'_1, hmin]
        exact ⟨h1, by omega⟩
    · have hc1 : (twinkleStripeAction cols rows interval (ts k) st).twRowCursor
          = st.twRowCursor + stripeRowsFor cols := by
        rw [hc, if_neg hend]
      have hres := ih (twinkleStripeAction cols rows interval (ts k) st)
        (by rw [hc1]; omega) (by rw [hc1]; omega) (by rw [hc1]; omega)
      rw [hunf]
      refine ⟨hres.1, ?_, ?_⟩
      · intro x hx
        refine hres.2.1 x ?_
        rw [hp]
        exact List.mem_append_left _ hx
      · intro rr h1 h2
        by_cases hrr : rr < st.twRowCursor + stripeRowsFor cols
        · refine hres.2.1 rr ?_
          rw [hp]
          refine List.mem_append_right _ ?_
          rw [List.mem_range'_1]
          have hmin : min rows (st.twRowCursor + stripeRowsFor cols)
              = st.twRowCursor + stripeRowsFor cols := min_eq_right (by omega)
          rw [hmin]
          exact ⟨h1, by omega⟩
        · exact hres.2.2 rr (by rw [hc1]; omega) h2

end MatrixTrails

namespace MatrixTrails

/-- A minimal concrete grid used to exercise the drop simulation: every cell
blank, one column-wide state given by `pos`/`spd`. -/
def demoGrid (pos spd : ℚ) (cols rows : ℕ) : Grid :=
  { cols := cols, rows := rows, wallChars := fun _ => 0, baseChars := fun _ => 0,
    twPhase := fun _ => 0, twSpeed := fun _ => 0, hitMask := fun _ => false,
    hiByCol := fun _ => [], trail := fun _ => 0, active := [], activeFlag := fun _ => false,
    dropPos := fun _ => pos, dropSpd := fun _ => spd }

/-- Concrete simulation parameters for the witnesses. -/
def demoParams : SimParams :=
  { outsideStrength := 1/2, insideStrength := 3/4, outsideDecay := 9/10,
    insideDecay := 9/10, fillFixed := true }

/-- A concrete drop oracle: every strike writes codepoint 88, no respawns. -/
def demoOracle : DropOracle :=
  { repl := fun _ _ => 88, respawn := fun _ => false, newPos := fun _ => 0,
    newSpd := fun _ => 1 }

/-- A concrete grid with cell 2 active at trail 1/2 and a drop far below it. -/
def demoGridActive : Grid :=
  { cols := 1, rows := 10, wallChars := fun _ => 7, baseChars := fun _ => 3,
    twPhase := fun _ => 0, twSpeed := fun _ => 0, hitMask := fun _ => false,
    hiByCol := fun _ => [], trail := fun j => if j = 2 then 1/2 else 0, active := [2],
    activeFlag := fun j => decide (j = 2), dropPos := fun _ => 97/10, dropSpd := fun _ => 1 }

end MatrixTrails

/-- Claim C1: with `lockEnds` set, `evalGradient` returns exactly 0 whenever
`u ≤ 0` or `u ≥ 1`, regardless of the stop positions and values (including
stops placed exactly at 0 or 1). -/
theorem C1_lock_ends_zero (stops : List SweepHighlight.GradientStop) (u : ℚ)
    (h : u ≤ 0 ∨ 1 ≤ u) : SweepHighlight.evalGradient stops u true = 0 := by
  unfold SweepHighlight.evalGradient
  rw [if_pos ⟨rfl, h⟩]

theorem C1_lock_ends_zero_witness :
    ((1 : ℚ) ≤ 0 ∨ 1 ≤ (1 : ℚ))
    ∧ SweepHighlight.evalGradient [⟨0, 1⟩, ⟨1, 1⟩] 1 true = 0 :=
  ⟨Or.inr le_rfl, C1_lock_ends_zero [⟨0, 1⟩, ⟨1, 1⟩] 1 (Or.inr le_rfl)⟩

/-- Claim C2: for a fixed phase offset the sweep center
`t = ((now / periodMs) + phase) % 1; center = -overscan + t * (1 + 2 * overscan)`
is periodic in `now` with period `periodMs`, always lies in
`[-overscan, 1 + overscan]`, and `draw`'s own conditioning
(`periodMs = max(0.5, speed) * 1000`) inherits the periodicity. -/
theorem C2_sweep_center (nowMs periodMs phase overscan : ℚ)
    (hn : 0 ≤ nowMs) (hp : 0 < periodMs) (hph : 0 ≤ phase) (ho : 0 ≤ overscan) :
    SweepHighlight.sweepCenter (nowMs + periodMs) periodMs phase overscan
      = SweepHighlight.sweepCenter nowMs periodMs phase overscan
    ∧ -overscan ≤ SweepHighlight.sweepCenter nowMs periodMs phase overscan
    ∧ SweepHighlight.sweepCenter nowMs periodMs phase overscan ≤ 1 + overscan
    ∧ ∀ speed halfWRaw : ℚ,
        SweepHighlight.drawCenter speed halfWRaw (nowMs + max (1/2) speed * 1000) phase
          = SweepHighlight.drawCenter speed halfWRaw nowMs phase := by
  obtain ⟨h1, h2⟩ := SweepHighlight.sweepCenter_mem nowMs periodMs phase overscan hn hp hph ho
  refine ⟨SweepHighlight.sweepCenter_periodic nowMs periodMs phase overscan hn hp hph,
    h1, h2, ?_⟩
  intro speed halfWRaw
  rw [SweepHighlight.drawCenter_eq, SweepHighlight.drawCenter_eq]
  exact SweepHighlight.sweepCenter_periodic nowMs (max (1/2) speed * 1000) phase _ hn
    (mul_pos (lt_of_lt_of_le (by norm_num) (le_max_left (1/2) speed)) (by norm_num)) hph

theorem C2_sweep_center_witness :
    ((0:ℚ) ≤ 0 ∧ (0:ℚ) < 1000 ∧ (0:ℚ) ≤ 0 ∧ (0:ℚ) ≤ 1/4)
    ∧ (SweepHighlight.sweepCenter (0 + 1000) 1000 0 (1/4)
        = SweepHighlight.sweepCenter 0 1000 0 (1/4)
      ∧ -(1/4:ℚ) ≤ SweepHighlight.sweepCenter 0 1000 0 (1/4)
      ∧ SweepHighlight.sweepCenter 0 1000 0 (1/4) ≤ 1 + 1/4
      ∧ ∀ speed halfWRaw : ℚ,
          SweepHighlight.drawCenter speed halfWRaw (0 + max (1/2) speed * 1000) 0
            = SweepHighlight.drawCenter speed halfWRaw 0 0) :=
  ⟨⟨le_refl 0, by norm_num, le_refl 0, by norm_num⟩,
    C2_sweep_center 0 1000 0 (1/4) (le_refl 0) (by norm_num) (le_refl 0) (by norm_num)⟩

/-- Claim C6: the grid geometry is `cols = max(1, ceil(width / cell))` and
`rows = max(1, ceil(height / cell))`, so both are at least 1; for a 320x160
surface at cell size 16 this gives 20 columns and 10 rows, and fixed fill in
horizontal orientation with source pool ["AB"] assigns codepoints cyclically
`pool[i mod 2]` in row-major cell order. -/
theorem C6_grid_build :
    (∀ w cs : ℚ, 1 ≤ SweepHighlight.gridCols w cs)
    ∧ (∀ h cs : ℚ, 1 ≤ SweepHighlight.gridRows h cs)
    ∧ SweepHighlight.gridCols 320 16 = 20
    ∧ SweepHighlight.gridRows 160 16 = 10
    ∧ (∀ (rand : ℕ → ℕ) (i : ℕ),
        SweepHighlight.assignChar SweepHighlight.BgMode.fixed
          SweepHighlight.Orientation.horizontal
          (SweepHighlight.buildFixedPool [['A', 'B']]) rand 20 10 i
          = if i % 2 = 0 then 65 else 66) := by
  refine ⟨fun w cs => le_max_left _ _, fun h cs => le_max_left _ _, ?_, ?_, ?_⟩
  · unfold SweepHighlight.gridCols SweepHighlight.gridCell
    norm_num [max_def, Int.ceil_eq_iff]
  · unfold SweepHighlight.gridRows SweepHighlight.gridCell
    norm_num [max_def, Int.ceil_eq_iff]
  · intro rand i
    have hpool : SweepHighlight.buildFixedPool [['A', 'B']] = [65, 66] := by decide
    simp only [SweepHighlight.assignChar, hpool]
    have hfl : SweepHighlight.fixedLen [65, 66] = 2 := rfl
    rw [hfl]
    rcases Nat.mod_two_eq_zero_or_one i with h | h <;> rw [h] <;> simp

/-- Claim C9: an empty or all-whitespace source string falls back to the
codepoints of the non-empty pool "你好世界" (array form: to `[0x4e00]`), both
pool builders never return an empty pool, and the `length || 1` cycling
denominator is always positive. -/
theorem C9_pool_never_empty (s : List Char) (ts : List (List Char))
    (hs : ∀ c ∈ s, c.isWhitespace = true)
    (hts : ∀ t ∈ ts, ∀ c ∈ t, c.isWhitespace = true) :
    MatrixTrails.buildFixedPool s = "你好世界".toList.map jsCodePoint
    ∧ SweepHighlight.buildFixedPool ts = [0x4e00]
    ∧ (∀ s2 : List Char, MatrixTrails.buildFixedPool s2 ≠ [])
    ∧ (∀ ts2 : List (List Char), SweepHighlight.buildFixedPool ts2 ≠ [])
    ∧ (∀ pool : List ℕ, 0 < SweepHighlight.fixedLen pool) :=
  ⟨MatrixTrails.mt_pool_fallback s (MatrixTrails.jsTrim_of_all_ws s hs),
    SweepHighlight.sweep_pool_fallback ts
      (fun t ht => MatrixTrails.jsTrim_of_all_ws t (hts t ht)),
    MatrixTrails.mt_pool_ne_nil, SweepHighlight.sweep_pool_ne_nil,
    SweepHighlight.fixedLen_pos⟩

theorem C9_pool_never_empty_witness :
    (∀ c ∈ [' '], c.isWhitespace = true)
    ∧ (∀ t ∈ [[' ']], ∀ c ∈ t, c.isWhitespace = true)
    ∧ MatrixTrails.buildFixedPool [' '] = "你好世界".toList.map jsCodePoint
    ∧ SweepHighlight.buildFixedPool [[' ']] = [0x4e00] := by
  have h1 : ∀ c ∈ [' '], c.isWhitespace = true := by decide
  have h2 : ∀ t ∈ [[' ']], ∀ c ∈ t, c.isWhitespace = true := by decide
  have h := C9_pool_never_empty [' '] [[' ']] h1 h2
  exact ⟨h1, h2, h.1, h.2.1⟩

theorem C4_gradient_counterexample :
    List.Sorted SweepHighlight.stopLe [⟨0, 0⟩, ⟨0, 1⟩]
    ∧ SweepHighlight.evalGradient [⟨0, 0⟩, ⟨0, 1⟩] 0 false
        ≠ (List.getD [⟨0, 0⟩, ⟨0, 1⟩] 1 (⟨0, 0⟩ : SweepHighlight.GradientStop)).v := by
  have hsorted : List.Sorted SweepHighlight.stopLe [⟨0, 0⟩, ⟨0, 1⟩] := by
    simp [List.sorted_cons, SweepHighlight.stopLe]
  have hsort : SweepHighlight.sortStops [⟨0, 0⟩, ⟨0, 1⟩] = [⟨0, 0⟩, ⟨0, 1⟩] :=
    SweepHighlight.sortStops_eq_self hsorted
  refine ⟨hsorted, ?_⟩
  rw [SweepHighlight.evalGradient_unlocked _ _ (by simp), hsort]
  norm_num [List.getD_cons_zero, List.getD_cons_succ]

/-- Claim C4 (amended): the claim fails as stated for sorted stop lists with
consecutive positions closer than the `1e-6` denominator floor (duplicate
positions make the post-clamp value the first, not the last, matching stop,
and the floored denominator distorts the lerp).  For stop lists whose
consecutive positions are separated by more than `1e-6` and `lockEnds` off:
values at or before the first stop clamp to the first stop's value, at or
after the last stop to the last stop's value, strictly between two
consecutive stops the result is their exact linear interpolation, and the
concrete scenario `[{0,0},{0.5,1},{1,0}]` gives 1/2, 1/2 and 1 at 0.25, 0.75
and 0.5. -/
theorem C4_gradient_interp (stops : List SweepHighlight.GradientStop)
    (hs : SweepHighlight.GapSorted stops) (hne : stops ≠ []) :
    (∀ u : ℚ, u ≤ (stops.getD 0 ⟨0, 0⟩).p →
      SweepHighlight.evalGradient stops u false = (stops.getD 0 ⟨0, 0⟩).v)
    ∧ (∀ u : ℚ, (stops.getD (stops.length - 1) ⟨0, 0⟩).p ≤ u →
      SweepHighlight.evalGradient stops u false
        = (stops.getD (stops.length - 1) ⟨0, 0⟩).v)
    ∧ (∀ (i : ℕ) (u : ℚ), i + 1 < stops.length →
      (stops.getD i ⟨0, 0⟩).p < u → u < (stops.getD (i + 1) ⟨0, 0⟩).p →
      SweepHighlight.evalGradient stops u false
        = (stops.getD i ⟨0, 0⟩).v
          + ((stops.getD (i + 1) ⟨0, 0⟩).v - (stops.getD i ⟨0, 0⟩).v)
            * ((u - (stops.getD i ⟨0, 0⟩).p)
              / ((stops.getD (i + 1) ⟨0, 0⟩).p - (stops.getD i ⟨0, 0⟩).p)))
    ∧ SweepHighlight.evalGradient [⟨0, 0⟩, ⟨1/2, 1⟩, ⟨1, 0⟩] (1/4) false = 1/2
    ∧ SweepHighlight.evalGradient [⟨0, 0⟩, ⟨1/2, 1⟩, ⟨1, 0⟩] (3/4) false = 1/2
    ∧ SweepHighlight.evalGradient [⟨0, 0⟩, ⟨1/2, 1⟩, ⟨1, 0⟩] (1/2) false = 1 := by
  have hlen0 : stops.length ≠ 0 := fun e => hne (List.length_eq_zero.mp e)
  have hsort : SweepHighlight.sortStops stops = stops :=
    SweepHighlight.sortStops_eq_self (SweepHighlight.gapSorted_sorted hs)
  have hs3 : SweepHighlight.sortStops [⟨0, 0⟩, ⟨1/2, 1⟩, ⟨1, 0⟩]
      = [⟨0, 0⟩, ⟨1/2, 1⟩, ⟨1, 0⟩] :=
    SweepHighlight.sortStops_eq_self
      (by norm_num [List.sorted_cons, SweepHighlight.stopLe])
  refine ⟨?_, ?_, ?_, ?_, ?_, ?_⟩
  · intro u hu
    rw [SweepHighlight.evalGradient_unlocked stops u hlen0, hsort, if_pos hu]
  · intro u hu
    rw [SweepHighlight.evalGradient_unlocked stops u hlen0, hsort]
    by_cases hu1 : u ≤ (stops.getD 0 ⟨0, 0⟩).p
    · rw [if_pos hu1]
      rcases Nat.lt_or_ge 1 stops.length with h2 | h2
      · exfalso
        have hgl := SweepHighlight.gapSorted_getD_lt hs ⟨0, 0⟩ 0 (stops.length - 1)
          (by omega) (by omega)
        linarith
      · have h1 : stops.length - 1 = 0 := by omega
        rw [h1]
    · rw [if_neg hu1, if_pos hu]
  · intro i u hil h1 h2
    rw [SweepHighlight.evalGradient_unlocked stops u hlen0, hsort]
    have hfirst_lt : (stops.getD 0 ⟨0, 0⟩).p < u := by
      rcases Nat.eq_zero_or_pos i with hi0 | hip
      · subst hi0
        exact h1
      · have hgl := SweepHighlight.gapSorted_getD_lt hs ⟨0, 0⟩ 0 i hip (by omega)
        linarith
    rw [if_neg (not_le.mpr hfirst_lt)]
    have hlast_gt : u < (stops.getD (stops.length - 1) ⟨0, 0⟩).p := by
      rcases Nat.lt_or_ge (i + 1) (stops.length - 1) with hlt | hge
      · have hgl := SweepHighlight.gapSorted_getD_lt hs ⟨0, 0⟩ (i + 1)
          (stops.length - 1) hlt (by omega)
        linarith
      · have he : i + 1 = stops.length - 1 := by omega
        rw [← he]
        exact h2
    rw [if_neg (not_le.mpr hlast_gt)]
    exact SweepHighlight.interpSegments_spec ⟨0, 0⟩ i stops u hs hil h1 h2
  · rw [SweepHighlight.evalGradient_unlocked _ _ (by simp), hs3]
    norm_num [SweepHighlight.interpSegments, max_def,
      List.getD_cons_zero, List.getD_cons_succ]
  · rw [SweepHighlight.evalGradient_unlocked _ _ (by simp), hs3]
    norm_num [SweepHighlight.interpSegments, max_def,
      List.getD_cons_zero, List.getD_cons_succ]
  · rw [SweepHighlight.evalGradient_unlocked _ _ (by simp), hs3]
    norm_num [SweepHighlight.interpSegments, max_def,
      List.getD_cons_zero, List.getD_cons_succ]

theorem C4_gradient_interp_witness :
    SweepHighlight.GapSorted [⟨0, 0⟩, ⟨1/2, 1⟩, ⟨1, 0⟩]
    ∧ ([⟨0, 0⟩, ⟨1/2, 1⟩, ⟨1, 0⟩] : List SweepHighlight.GradientStop) ≠ []
    ∧ SweepHighlight.evalGradient [⟨0, 0⟩, ⟨1/2, 1⟩, ⟨1, 0⟩] (1/2) false = 1 := by
  have h1 : SweepHighlight.GapSorted [⟨0, 0⟩, ⟨1/2, 1⟩, ⟨1, 0⟩] := by
    norm_num [SweepHighlight.GapSorted, List.pairwise_cons]
  have h2 : ([⟨0, 0⟩, ⟨1/2, 1⟩, ⟨1, 0⟩] : List SweepHighlight.GradientStop) ≠ [] := by
    simp
  exact ⟨h1, h2, (C4_gradient_interp _ h1 h2).2.2.2.2.2⟩

theorem C7_budget_counterexample :
    2000 < MatrixTrails.stripeRowsFor 2001 * 2001 := by decide

/-- Claim C7 (amended): the budget claim fails as stated once `cols` exceeds
the whole 2000-cell budget (for `cols = 2001` the chosen height 1 already
gives `stripeRows * cols = 2001 > 2000`).  For `1 ≤ cols ≤ 2000`: the stripe
stays within the budget, an elapsed interval repaints exactly the stripe
`[cursor, min(rows, cursor + stripeRows))` and advances the cursor by
`stripeRows` (wrapping to 0 at the bottom), and one full cycle of
`ceil(rows / stripeRows)` elapsed repaints from cursor 0 paints every row and
returns the cursor to 0. -/
theorem C7_stripe_cycle (cols rows : ℕ) (twFpsRaw nowMs interval : ℚ)
    (ts : ℕ → ℚ) (st : MatrixTrails.StripeState)
    (hc1 : 1 ≤ cols) (hc2 : cols ≤ 2000) (hrows : 0 < rows)
    (hfps : 0 < jsClamp twFpsRaw 0 30) (hel : st.nextTwinkleAt ≤ nowMs)
    (hcur : st.twRowCursor = 0) :
    MatrixTrails.stripeRowsFor cols * cols ≤ 2000
    ∧ MatrixTrails.maybeTwinkleStripe cols rows twFpsRaw nowMs st
        = MatrixTrails.twinkleStripeAction cols rows (1000 / jsClamp twFpsRaw 0 30) nowMs st
    ∧ (MatrixTrails.twinkleStripeAction cols rows interval nowMs st).rowsPainted
        = st.rowsPainted ++ List.range' st.twRowCursor
            (min rows (st.twRowCursor + MatrixTrails.stripeRowsFor cols) - st.twRowCursor)
    ∧ (MatrixTrails.twinkleStripeAction cols rows interval nowMs st).twRowCursor
        = (if rows ≤ st.twRowCursor + MatrixTrails.stripeRowsFor cols then 0
           else st.twRowCursor + MatrixTrails.stripeRowsFor cols)
    ∧ (MatrixTrails.stripeIter cols rows interval ts
          ((rows + MatrixTrails.stripeRowsFor cols - 1) / MatrixTrails.stripeRowsFor cols)
          st).twRowCursor = 0
    ∧ (∀ rr, rr < rows →
        rr ∈ (MatrixTrails.stripeIter cols rows interval ts
          ((rows + MatrixTrails.stripeRowsFor cols - 1) / MatrixTrails.stripeRowsFor cols)
          st).rowsPainted) := by
  have hs1 : 1 ≤ MatrixTrails.stripeRowsFor cols := MatrixTrails.stripeRowsFor_pos cols
  have hkey : rows ≤ ((rows + MatrixTrails.stripeRowsFor cols - 1)
        / MatrixTrails.stripeRowsFor cols) * MatrixTrails.stripeRowsFor cols
      ∧ ((rows + MatrixTrails.stripeRowsFor cols - 1)
        / MatrixTrails.stripeRowsFor cols) * MatrixTrails.stripeRowsFor cols
          < rows + MatrixTrails.stripeRowsFor cols := by
    have hdm := Nat.div_add_mod (rows + MatrixTrails.stripeRowsFor cols - 1)
      (MatrixTrails.stripeRowsFor cols)
    have hmod : (rows + MatrixTrails.stripeRowsFor cols - 1)
        % MatrixTrails.stripeRowsFor cols < MatrixTrails.stripeRowsFor cols :=
      Nat.mod_lt _ (by omega)
    rw [Nat.mul_comm] at hdm
    omega
  obtain ⟨hk1, hk2⟩ := hkey
  have hcov := MatrixTrails.stripeIter_cover cols rows interval ts
    ((rows + MatrixTrails.stripeRowsFor cols - 1) / MatrixTrails.stripeRowsFor cols) st
    (by omega) (by rw [hcur]; omega) (by rw [hcur]; omega)
  refine ⟨MatrixTrails.stripeRowsFor_budget cols hc1 hc2,
    MatrixTrails.maybeTwinkleStripe_fire cols rows twFpsRaw nowMs st hfps hel,
    (MatrixTrails.twinkleStripeAction_parts cols rows interval nowMs st).1,
    (MatrixTrails.twinkleStripeAction_parts cols rows interval nowMs st).2.1,
    hcov.1, ?_⟩
  intro rr hrr
  exact hcov.2.2 rr (by omega) hrr

theorem C7_stripe_cycle_witness :
    ((1:ℕ) ≤ 20 ∧ (20:ℕ) ≤ 2000 ∧ (0:ℕ) < 10 ∧ (0:ℚ) < jsClamp 12 0 30
      ∧ (MatrixTrails.StripeState.mk [] 0 0).nextTwinkleAt ≤ (0:ℚ)
      ∧ (MatrixTrails.StripeState.mk [] 0 0).twRowCursor = 0)
    ∧ MatrixTrails.stripeRowsFor 20 * 20 ≤ 2000
    ∧ (MatrixTrails.stripeIter 20 10 1 (fun _ => 0)
        ((10 + MatrixTrails.stripeRowsFor 20 - 1) / MatrixTrails.stripeRowsFor 20)
        (MatrixTrails.StripeState.mk [] 0 0)).twRowCursor = 0
    ∧ (∀ rr, rr < 10 →
        rr ∈ (MatrixTrails.stripeIter 20 10 1 (fun _ => 0)
          ((10 + MatrixTrails.stripeRowsFor 20 - 1) / MatrixTrails.stripeRowsFor 20)
          (MatrixTrails.StripeState.mk [] 0 0)).rowsPainted) := by
  have hfps : (0:ℚ) < jsClamp 12 0 30 := by norm_num [jsClamp, max_def, min_def]
  have h := C7_stripe_cycle 20 10 12 0 1 (fun _ => 0) (MatrixTrails.StripeState.mk [] 0 0)
    (by norm_num) (by norm_num) (by norm_num) hfps (le_refl 0) rfl
  exact ⟨⟨by norm_num, by norm_num, by norm_num, hfps, le_refl 0, rfl⟩,
    h.1, h.2.2.2.2.1, h.2.2.2.2.2⟩

/-- Claim C8: rasterizing the highlight mask changes only `hitMask` and
`hiByCol`: trail values, the active set and flags, twinkle phase/speed and the
wall/baseline codepoints are untouched, and the rebuilt inverted index of a
column lists exactly the mask-set cell indices of that column. -/
theorem C8_rasterize_frame (data : ℕ → Bool) (cols rows : ℕ) (g : MatrixTrails.Grid)
    (hc : cols ≠ 0) (hr : rows ≠ 0) :
    (MatrixTrails.rasterizeHitMask data cols rows g).trail = g.trail
    ∧ (MatrixTrails.rasterizeHitMask data cols rows g).active = g.active
    ∧ (MatrixTrails.rasterizeHitMask data cols rows g).activeFlag = g.activeFlag
    ∧ (MatrixTrails.rasterizeHitMask data cols rows g).twPhase = g.twPhase
    ∧ (MatrixTrails.rasterizeHitMask data cols rows g).twSpeed = g.twSpeed
    ∧ (MatrixTrails.rasterizeHitMask data cols rows g).wallChars = g.wallChars
    ∧ (MatrixTrails.rasterizeHitMask data cols rows g).baseChars = g.baseChars
    ∧ (MatrixTrails.rasterizeHitMask data cols rows g).cols = g.cols
    ∧ (MatrixTrails.rasterizeHitMask data cols rows g).rows = g.rows
    ∧ (MatrixTrails.rasterizeHitMask data cols rows g).dropPos = g.dropPos
    ∧ (MatrixTrails.rasterizeHitMask data cols rows g).dropSpd = g.dropSpd
    ∧ (∀ c i : ℕ, i ∈ (MatrixTrails.rasterizeHitMask data cols rows g).hiByCol c
        ↔ (i < cols * rows
          ∧ (MatrixTrails.rasterizeHitMask data cols rows g).hitMask i = true
          ∧ i % cols = c)) := by
  obtain ⟨f1, f2, f3, f4, f5, f6, f7, f8, f9, f10, f11⟩ :=
    MatrixTrails.rasterizeHitMask_frame data cols rows g
  obtain ⟨m1, m2⟩ := MatrixTrails.rasterizeHitMask_mask data cols rows g hc hr
  refine ⟨f7, f8, f9, f5, f6, f3, f4, f1, f2, f10, f11, ?_⟩
  intro c i
  rw [m2, MatrixTrails.buildColIndex_filter cols data (cols * rows) c, List.mem_filter,
    List.mem_range, m1]
  constructor
  · rintro ⟨h1, h2⟩
    simp only [Bool.and_eq_true, decide_eq_true_eq] at h2
    exact ⟨h1, by simp [h1, h2.1], h2.2⟩
  · rintro ⟨h1, h2, h3⟩
    refine ⟨h1, ?_⟩
    simp only [Bool.and_eq_true, decide_eq_true_eq]
    refine ⟨?_, h3⟩
    simpa [h1] using h2

theorem C8_rasterize_frame_witness :
    ((2:ℕ) ≠ 0 ∧ (2:ℕ) ≠ 0)
    ∧ (MatrixTrails.rasterizeHitMask (fun i => decide (i = 1)) 2 2
        (MatrixTrails.demoGrid 0 0 2 2)).trail = (MatrixTrails.demoGrid 0 0 2 2).trail
    ∧ (∀ c i : ℕ, i ∈ (MatrixTrails.rasterizeHitMask (fun i => decide (i = 1)) 2 2
          (MatrixTrails.demoGrid 0 0 2 2)).hiByCol c
        ↔ (i < 2 * 2
          ∧ (MatrixTrails.rasterizeHitMask (fun i => decide (i = 1)) 2 2
              (MatrixTrails.demoGrid 0 0 2 2)).hitMask i = true
          ∧ i % 2 = c)) := by
  have h := C8_rasterize_frame (fun i => decide (i = 1)) 2 2 (MatrixTrails.demoGrid 0 0 2 2)
    (by norm_num) (by norm_num)
  exact ⟨⟨by norm_num, by norm_num⟩, h.1, h.2.2.2.2.2.2.2.2.2.2.2⟩

/-- Claim C5: in one drops phase, every integer row `r` of the inclusive floor
range `[floor(prev), floor(prev + speed)]` of a column's drop that lies inside
`[0, rows)` is struck — its codepoint is replaced by the oracle's draw, its
trail is raised to at least the applicable injection strength, and the cell is
added to the active set — while every cell whose row misses its own column's
range is left untouched. -/
theorem C5_drop_strikes (p : MatrixTrails.SimParams) (o : MatrixTrails.DropOracle)
    (g : MatrixTrails.Grid) (hinv : MatrixTrails.ActiveInv g) :
    (∀ (c : ℕ) (r : ℤ), c < g.cols → 0 ≤ r → r < (g.rows : ℤ) →
      ⌊g.dropPos c⌋ ≤ r → r ≤ ⌊g.dropPos c + g.dropSpd c⌋ →
      (MatrixTrails.stepDrops p o g).wallChars (r.toNat * g.cols + c) = o.repl c r
      ∧ MatrixTrails.injStrength p g (r.toNat * g.cols + c)
          ≤ (MatrixTrails.stepDrops p o g).trail (r.toNat * g.cols + c)
      ∧ (r.toNat * g.cols + c) ∈ (MatrixTrails.stepDrops p o g).active)
    ∧ (∀ j : ℕ, MatrixTrails.NotStruck g j →
      (MatrixTrails.stepDrops p o g).wallChars j = g.wallChars j
      ∧ (MatrixTrails.stepDrops p o g).trail j = g.trail j
      ∧ (j ∈ (MatrixTrails.stepDrops p o g).active ↔ j ∈ g.active)) := by
  constructor
  · intro c r hc hr0 hrr hlo hhi
    have h := MatrixTrails.stepDrops_strike p o g c r hinv hc hr0 hrr hlo hhi
    exact ⟨h.1, h.2.1, h.2.2.2⟩
  · intro j hns
    have h := MatrixTrails.stepDrops_frame p o g j hns
    exact ⟨h.1, h.2.1, h.2.2.2⟩

theorem C5_drop_strikes_witness :
    MatrixTrails.ActiveInv (MatrixTrails.demoGrid (97/10) 1 1 10)
    ∧ (MatrixTrails.stepDrops MatrixTrails.demoParams MatrixTrails.demoOracle
        (MatrixTrails.demoGrid (97/10) 1 1 10)).wallChars
          ((9:ℤ).toNat * (MatrixTrails.demoGrid (97/10) 1 1 10).cols + 0)
        = MatrixTrails.demoOracle.repl 0 9
    ∧ ((9:ℤ).toNat * (MatrixTrails.demoGrid (97/10) 1 1 10).cols + 0)
        ∈ (MatrixTrails.stepDrops MatrixTrails.demoParams MatrixTrails.demoOracle
            (MatrixTrails.demoGrid (97/10) 1 1 10)).active
    ∧ (MatrixTrails.stepDrops MatrixTrails.demoParams MatrixTrails.demoOracle
        (MatrixTrails.demoGrid (97/10) 1 1 10)).trail 8
        = (MatrixTrails.demoGrid (97/10) 1 1 10).trail 8
    ∧ (8 ∈ (MatrixTrails.stepDrops MatrixTrails.demoParams MatrixTrails.demoOracle
          (MatrixTrails.demoGrid (97/10) 1 1 10)).active
        ↔ 8 ∈ (MatrixTrails.demoGrid (97/10) 1 1 10).active) := by
  have hinv : MatrixTrails.ActiveInv (MatrixTrails.demoGrid (97/10) 1 1 10) := by
    constructor
    · simp [MatrixTrails.demoGrid]
    · intro j
      simp [MatrixTrails.demoGrid]
  have h := C5_drop_strikes MatrixTrails.demoParams MatrixTrails.demoOracle
    (MatrixTrails.demoGrid (97/10) 1 1 10) hinv
  have hstrike := h.1 0 9 (by norm_num [MatrixTrails.demoGrid]) (by norm_num)
    (by norm_num [MatrixTrails.demoGrid])
    (by show (⌊(97/10 : ℚ)⌋ : ℤ) ≤ 9; norm_num)
    (by show (9:ℤ) ≤ ⌊(97/10 : ℚ) + 1⌋; norm_num)
  have hns : MatrixTrails.NotStruck (MatrixTrails.demoGrid (97/10) 1 1 10) 8 := by
    unfold MatrixTrails.NotStruck
    norm_num [MatrixTrails.demoGrid]
  have hframe := h.2 8 hns
  exact ⟨hinv, hstrike.1, hstrike.2.2, hframe.2.1, hframe.2.2⟩

/-- Claim C3: one simulation step multiplies the trail of an active cell that
its column's drop does not re-strike by the applicable clamped decay factor
(inside factor on masked cells, outside factor otherwise), which strictly
decreases it; once the decayed value falls below the 0.006 threshold the trail
snaps to exactly 0, the cell leaves the active set, and its codepoint is
restored to the baseline exactly when the fill mode is fixed (in random fill
mode the struck codepoint stays). -/
theorem C3_trail_decay (p : MatrixTrails.SimParams) (o : MatrixTrails.DropOracle)
    (g : MatrixTrails.Grid) (idx : ℕ)
    (hnd : g.active.Nodup) (hmem : idx ∈ g.active)
    (hns : MatrixTrails.NotStruck g idx) :
    (6/1000 ≤ g.trail idx * MatrixTrails.decCoef (jsClamp p.insideDecay (1/2) (199/200))
        (jsClamp p.outsideDecay (1/2) (49/50)) g idx →
      (MatrixTrails.stepSimulation p o g).trail idx
        = g.trail idx * MatrixTrails.decCoef (jsClamp p.insideDecay (1/2) (199/200))
            (jsClamp p.outsideDecay (1/2) (49/50)) g idx
      ∧ (MatrixTrails.stepSimulation p o g).trail idx < g.trail idx
      ∧ idx ∈ (MatrixTrails.stepSimulation p o g).active)
    ∧ (g.trail idx * MatrixTrails.decCoef (jsClamp p.insideDecay (1/2) (199/200))
        (jsClamp p.outsideDecay (1/2) (49/50)) g idx < 6/1000 →
      (MatrixTrails.stepSimulation p o g).trail idx = 0
      ∧ (MatrixTrails.stepSimulation p o g).activeFlag idx = false
      ∧ idx ∉ (MatrixTrails.stepSimulation p o g).active
      ∧ (MatrixTrails.stepSimulation p o g).wallChars idx
        = (if p.fillFixed = true ∧ g.wallChars idx ≠ g.baseChars idx then g.baseChars idx
           else g.wallChars idx)) := by
  unfold MatrixTrails.stepSimulation MatrixTrails.stepDecay
  have hproc := MatrixTrails.decayLoop_process (jsClamp p.insideDecay (1/2) (199/200))
    (jsClamp p.outsideDecay (1/2) (49/50)) p.fillFixed idx g 0 hnd
    (by rw [List.drop_zero]; exact hmem)
  have hfields := MatrixTrails.decayLoop_fields (jsClamp p.insideDecay (1/2) (199/200))
    (jsClamp p.outsideDecay (1/2) (49/50)) p.fillFixed g 0
  have hnsmid : MatrixTrails.NotStruck
      (MatrixTrails.decayLoop (jsClamp p.insideDecay (1/2) (199/200))
        (jsClamp p.outsideDecay (1/2) (49/50)) p.fillFixed g 0) idx := by
    unfold MatrixTrails.NotStruck at hns ⊢
    rw [hfields.1, hfields.2.1, hfields.2.2.2.2.2.2.2.1, hfields.2.2.2.2.2.2.2.2]
    exact hns
  have hframe := MatrixTrails.stepDrops_frame p o _ idx hnsmid
  have hdec : 0 < MatrixTrails.decCoef (jsClamp p.insideDecay (1/2) (199/200))
        (jsClamp p.outsideDecay (1/2) (49/50)) g idx
      ∧ MatrixTrails.decCoef (jsClamp p.insideDecay (1/2) (199/200))
        (jsClamp p.outsideDecay (1/2) (49/50)) g idx < 1 := by
    unfold MatrixTrails.decCoef
    split
    · exact ⟨lt_of_lt_of_le (by norm_num) (jsClamp_lo_le _ _ _ (by norm_num)),
        lt_of_le_of_lt (jsClamp_le_hi _ _ _) (by norm_num)⟩
    · exact ⟨lt_of_lt_of_le (by norm_num) (jsClamp_lo_le _ _ _ (by norm_num)),
        lt_of_le_of_lt (jsClamp_le_hi _ _ _) (by norm_num)⟩
  constructor
  · intro hge
    have hkeep := hproc.2 (not_lt.mpr hge)
    refine ⟨?_, ?_, ?_⟩
    · rw [hframe.2.1, hkeep.1]
    · rw [hframe.2.1, hkeep.1]
      have htr : 0 < g.trail idx := by nlinarith [hdec.1, hdec.2]
      nlinarith [hdec.1, hdec.2]
    · exact hframe.2.2.2.mpr hkeep.2.2.1
  · intro hlt
    have hrm := hproc.1 hlt
    refine ⟨?_, ?_, ?_, ?_⟩
    · rw [hframe.2.1, hrm.1]
    · rw [hframe.2.2.1, hrm.2.1]
    · intro hcon
      exact hrm.2.2.1 (hframe.2.2.2.mp hcon)
    · rw [hframe.1, hrm.2.2.2]

theorem C3_trail_decay_witness :
    (MatrixTrails.demoGridActive.active.Nodup
      ∧ 2 ∈ MatrixTrails.demoGridActive.active
      ∧ MatrixTrails.NotStruck MatrixTrails.demoGridActive 2)
    ∧ (MatrixTrails.stepSimulation MatrixTrails.demoParams MatrixTrails.demoOracle
        MatrixTrails.demoGridActive).trail 2 < MatrixTrails.demoGridActive.trail 2
    ∧ 2 ∈ (MatrixTrails.stepSimulation MatrixTrails.demoParams MatrixTrails.demoOracle
        MatrixTrails.demoGridActive).active := by
  have h1 : MatrixTrails.demoGridActive.active.Nodup := by
    simp [MatrixTrails.demoGridActive]
  have h2 : 2 ∈ MatrixTrails.demoGridActive.active := by
    simp [MatrixTrails.demoGridActive]
  have h3 : MatrixTrails.NotStruck MatrixTrails.demoGridActive 2 := by
    unfold MatrixTrails.NotStruck
    norm_num [MatrixTrails.demoGridActive]
  have hge : 6/1000 ≤ MatrixTrails.demoGridActive.trail 2
      * MatrixTrails.decCoef (jsClamp MatrixTrails.demoParams.insideDecay (1/2) (199/200))
        (jsClamp MatrixTrails.demoParams.outsideDecay (1/2) (49/50))
        MatrixTrails.demoGridActive 2 := by
    norm_num [MatrixTrails.demoGridActive, MatrixTrails.demoParams, MatrixTrails.decCoef,
      jsClamp, max_def, min_def]
  have h := (C3_trail_decay MatrixTrails.demoParams MatrixTrails.demoOracle
    MatrixTrails.demoGridActive 2 h1 h2 h3).1 hge
  exact ⟨⟨h1, h2, h3⟩, h.2.1, h.2.2⟩

/-- Claim C10: the active-set bookkeeping invariant — no duplicate indices and
the membership flag set exactly for listed indices — holds after a grid
rebuild and is preserved by `addActive` and by a full simulation step. -/
theorem C10_active_bookkeeping (width height cellSize : ℚ) (fillFixed : Bool)
    (fixedText : List Char) (ob : MatrixTrails.BuildOracle)
    (p : MatrixTrails.SimParams) (o : MatrixTrails.DropOracle)
    (g : MatrixTrails.Grid) (idx : ℕ) (hinv : MatrixTrails.ActiveInv g) :
    MatrixTrails.ActiveInv (MatrixTrails.rebuildAll width height cellSize fillFixed fixedText ob)
    ∧ MatrixTrails.ActiveInv (MatrixTrails.addActive g idx)
    ∧ MatrixTrails.ActiveInv (MatrixTrails.stepSimulation p o g) := by
  refine ⟨?_, MatrixTrails.addActive_activeInv g idx hinv, ?_⟩
  · unfold MatrixTrails.rebuildAll
    apply MatrixTrails.rasterizeHitMask_activeInv
    refine ⟨List.nodup_nil, ?_⟩
    intro j
    show false = true ↔ j ∈ ([] : List ℕ)
    simp
  · unfold MatrixTrails.stepSimulation MatrixTrails.stepDecay
    exact MatrixTrails.stepDrops_activeInv p o _
      (MatrixTrails.decayLoop_activeInv _ _ _ g 0 hinv)

theorem C10_active_bookkeeping_witness :
    MatrixTrails.ActiveInv MatrixTrails.demoGridActive
    ∧ MatrixTrails.ActiveInv (MatrixTrails.rebuildAll 320 160 16 true ['A']
        (MatrixTrails.BuildOracle.mk (fun _ => 0) (fun _ => 1) (fun _ => 0) (fun _ => 0)
          (fun _ => 0) (fun _ => false)))
    ∧ MatrixTrails.ActiveInv (MatrixTrails.addActive MatrixTrails.demoGridActive 5)
    ∧ MatrixTrails.ActiveInv (MatrixTrails.stepSimulation MatrixTrails.demoParams
        MatrixTrails.demoOracle MatrixTrails.demoGridActive) := by
  have hinv : MatrixTrails.ActiveInv MatrixTrails.demoGridActive := by
    constructor
    · simp [MatrixTrails.demoGridActive]
    · intro j
      simp [MatrixTrails.demoGridActive]
  have h := C10_active_bookkeeping 320 160 16 true ['A']
    (MatrixTrails.BuildOracle.mk (fun _ => 0) (fun _ => 1) (fun _ => 0) (fun _ => 0)
      (fun _ => 0) (fun _ => false)) MatrixTrails.demoParams MatrixTrails.demoOracle
    MatrixTrails.demoGridActive 5 hinv
  exact ⟨hinv, h.1, h.2.1, h.2.2⟩
